import Mathlib

/-!
# Event loop (`el.c`) and TCP helpers (`nio.c`)

A shallow embedding of the reactor of `el.c` and of the socket helpers of
`nio.c`, followed by the properties proved about them.

Conventions of the embedding

* C `int` and `long` values are `Int`; the bitwise operators `&`, `|`, `~`
  are `Int.land`, `Int.lor`, `Int.lnot` (two's complement on unbounded
  integers, which agrees with C on every value that fits the machine word).
  The `long` arithmetic on clock readings, deadlines and waits wraps to 64
  bits (`wrapLong`), which is what the machine does where C leaves the
  overflow undefined, and the conversion of a `long` to the `int` parameter
  `timeout` of `epoll_wait` is `wrapInt`.
* Pointers are `Nat`, with `0` for `NULL`.  Function pointers are `Nat` as
  well; what a pointed-to function does to the loop is given by a table
  `Procs`.
* File descriptors index `el->files`, so they are `Nat`; the table is a
  function on indices together with the capacity `size`.
* Timer nodes live in a memory `mem : Nat → elTimeEvent`; `released` tells
  which of them have been handed to `free`.  Reading a released node, handing
  it to `free` a second time, and calling through a `NULL` function pointer
  are undefined in C: an operation that reaches one of them ends there, in a
  `Res.fault`.
* Results of system calls are inputs of the operations.
* Every operation returns, next to its C result, the list of calls it made
  itself (`Event`), in order.
-/

namespace EventLoop

/-! ## `el.h` -/

def EL_OK : Int := 0
def EL_ERR : Int := -1

def EL_NONE : Int := 0
def EL_READABLE : Int := 1
def EL_WRITABLE : Int := 2
def EL_FREEABLE : Int := 4

/-- The record `elFileEvent` of `el.h`. -/
structure elFileEvent where
  mask : Int
  rfile_proc : Nat
  wfile_proc : Nat
  free_proc : Nat
  data : Nat
deriving DecidableEq

/-- The record `elTimeEvent` of `el.h`; `prev` and `next` are addresses in the
timer memory. -/
structure elTimeEvent where
  sc : Int
  ms : Int
  id : Int
  time_proc : Nat
  free_proc : Nat
  data : Nat
  prev : Nat
  next : Nat
deriving DecidableEq

/-- The record `elTrigEvent` of `el.h`. -/
structure elTrigEvent where
  fd : Nat
  mask : Int
deriving DecidableEq

/-- The record `elHandle` of `el.h`.  `files` and `trigs` are the two arrays of
`size` entries, `times` is the head of the timer list, `mem` the memory the
timer nodes live in and `released` the set of node addresses that have been
handed to `free` and not been allocated again.  The backend handle `data` is
represented by the results of its system calls, which are arguments of the
operations. -/
structure elHandle where
  size : Nat
  stop : Int
  num : Int
  wait : Int
  files : Nat → elFileEvent
  trigs : Nat → elTrigEvent
  times : Nat
  mem : Nat → elTimeEvent
  released : Nat → Bool

/-- What the functions behind the function pointers do to the loop they are
handed: `el_file_proc`, `el_time_proc` and `el_free_proc` of `el.h`. -/
structure Procs where
  file_proc : Nat → elHandle → Nat → Nat → Int → elHandle
  time_proc : Nat → elHandle → Int → Nat → elHandle
  free_proc : Nat → elHandle → Nat → elHandle

/-- The calls an operation makes, in the order it makes them. -/
inductive Event where
  | rfile_proc (f : Nat) (fd : Nat) (data : Nat) (mask : Int)
  | wfile_proc (f : Nat) (fd : Nat) (data : Nat) (mask : Int)
  | time_proc (f : Nat) (id : Int) (data : Nat)
  | free_proc (f : Nat) (data : Nat)
  | free_time (p : Nat)
  | epoll_destroy
  | free_handle
deriving DecidableEq

/-- The undefined steps an operation can reach: a call through a `NULL`
function pointer, a read of a released node, a second `free` of a node. -/
inductive Fault where
  | null_call
  | use_after_free
  | double_free
deriving DecidableEq

/-- How an operation ends: with its result, or at an undefined step, after the
calls `log`. -/
inductive Res (α : Type) where
  | ok (a : α)
  | fault (f : Fault) (log : List Event)
deriving DecidableEq

/-- The result of an operation seen through `g`; a fault stays what it is. -/
def Res.map {α β : Type} (g : α → β) : Res α → Res β
  | Res.ok a => Res.ok (g a)
  | Res.fault f log => Res.fault f log

/-! ## `<sys/epoll.h>` (Linux values) -/

def EPOLL_CTL_ADD : Int := 1
def EPOLL_CTL_DEL : Int := 2
def EPOLL_CTL_MOD : Int := 3
def EPOLLIN : Int := 1
def EPOLLOUT : Int := 4
def EPOLLERR : Int := 8
def EPOLLHUP : Int := 16

/-! ## Descriptor table -/

/-- Assignment to the entry `el->files[fd]`. -/
def setFile (el : elHandle) (fd : Nat) (e : elFileEvent) : elHandle :=
  { el with files := Function.update el.files fd e }

/-- Assignment to `el->files[fd].mask`. -/
def setMask (el : elHandle) (fd : Nat) (m : Int) : elHandle :=
  setFile el fd { el.files fd with mask := m }

/-- The `events` word both `_el_epoll_add` and `_el_epoll_del` build from the
stored mask. -/
def eeEvents (m : Int) : Int :=
  let e0 : Int := 0
  let e1 := if Int.land EL_READABLE m ≠ 0 then Int.lor e0 EPOLLIN else e0
  if Int.land EL_WRITABLE m ≠ 0 then Int.lor e1 EPOLLOUT else e1

/-- Source `_el_epoll_add` (el.c 79-95).  `ctl op fd events` is the result of the
`epoll_ctl` call. -/
def _el_epoll_add (ctl : Int → Nat → Int → Int) (el : elHandle) (fd : Nat) (mask : Int) :
    Int × elHandle :=
  let op := if EL_NONE = (el.files fd).mask then EPOLL_CTL_ADD else EPOLL_CTL_MOD
  let el1 := setMask el fd (Int.lor (el.files fd).mask mask)
  if EL_ERR = ctl op fd (eeEvents (el1.files fd).mask) then (EL_ERR, el1) else (EL_OK, el1)

/-- Source `_el_epoll_del` (el.c 97-113).  The result of `epoll_ctl` is not looked at. -/
def _el_epoll_del (el : elHandle) (fd : Nat) (mask : Int) : elHandle :=
  setMask el fd (Int.land (el.files fd).mask (Int.lnot mask))

/-- The stores of `el_file_add` into the entry (el.c 308-314). -/
def storeProcs (e0 : elFileEvent) (mask : Int) (file_proc data free_proc : Nat) : elFileEvent :=
  let e1 := if Int.land EL_READABLE mask ≠ 0 then { e0 with rfile_proc := file_proc } else e0
  let e2 := if Int.land EL_WRITABLE mask ≠ 0 then { e1 with wfile_proc := file_proc } else e1
  let e3 := if Int.land EL_FREEABLE mask ≠ 0 then { e2 with free_proc := free_proc } else e2
  { e3 with data := data }

/-- Source `el_file_add` (el.c 303-316). -/
def el_file_add (ctl : Int → Nat → Int → Int) (el : elHandle) (fd : Nat) (mask : Int)
    (file_proc : Nat) (data : Nat) (free_proc : Nat) : Int × elHandle :=
  if el.size ≤ fd then (EL_ERR, el)
  else
    _el_epoll_add ctl (setFile el fd (storeProcs (el.files fd) mask file_proc data free_proc))
      fd mask

/-- Source `el_file_del` (el.c 318-328).  The call through
`el->files[fd].free_proc` (el.c 325) is not guarded: when the pointer is
`NULL` the operation ends there. -/
def el_file_del (env : Procs) (el : elHandle) (fd : Nat) (mask : Int) :
    Res (elHandle × List Event) :=
  if el.size ≤ fd then Res.ok (el, [])
  else
    let fmask := (el.files fd).mask
    let el1 := _el_epoll_del el fd mask
    if Int.land (Int.land EL_FREEABLE mask) fmask ≠ 0 then
      let f := (el1.files fd).free_proc
      let d := (el1.files fd).data
      if f = 0 then Res.fault Fault.null_call []
      else
        let el2 := env.free_proc f el1 d
        Res.ok (setFile el2 fd { el2.files fd with free_proc := 0 }, [Event.free_proc f d])
    else Res.ok (el1, [])

/-- Source `el_file_get` (el.c 330-334). -/
def el_file_get (el : elHandle) (fd : Nat) : Int :=
  if el.size ≤ fd then EL_NONE else (el.files fd).mask

/-- Source `_el_file_clear` (el.c 142-148).  The bound `el->size` is read again at
every test of the loop condition. -/
def _el_file_clear_loop (env : Procs) : Nat → Nat → elHandle → List Event →
    Option (elHandle × List Event)
  | 0, i, el, log => if el.size > i then none else some (el, log)
  | fuel + 1, i, el, log =>
    if el.size > i then
      if (el.files i).free_proc ≠ 0 then
        _el_file_clear_loop env fuel (i + 1)
          (env.free_proc (el.files i).free_proc el (el.files i).data)
          (log ++ [Event.free_proc (el.files i).free_proc (el.files i).data])
      else _el_file_clear_loop env fuel (i + 1) el log
    else some (el, log)

/-- Source `_el_file_clear` (el.c 142-148). -/
def _el_file_clear (env : Procs) (fuel : Nat) (el : elHandle) : Option (elHandle × List Event) :=
  _el_file_clear_loop env fuel 0 el []

/-! ## Timer list -/

/-- Assignment to `p->next`. -/
def setNext (el : elHandle) (p v : Nat) : elHandle :=
  { el with mem := Function.update el.mem p { el.mem p with next := v } }

/-- Assignment to `p->prev`. -/
def setPrev (el : elHandle) (p v : Nat) : elHandle :=
  { el with mem := Function.update el.mem p { el.mem p with prev := v } }

/-- The unlinking of `te`, written out twice in the source: el.c 204-209 in
`_el_time_process` and el.c 370-375 in `el_time_del`. -/
def unlink (el : elHandle) (te : Nat) : elHandle :=
  let el1 :=
    if (el.mem te).prev ≠ 0 then setNext el (el.mem te).prev (el.mem te).next
    else { el with times := (el.mem te).next }
  if (el1.mem te).next ≠ 0 then setPrev el1 (el1.mem te).next (el1.mem te).prev else el1

/-- The test of el.c 202-203: the reading `(sc, ms)` of the clock has reached
the deadline of the node `t`. -/
def expired (now : Int × Int) (t : elTimeEvent) : Prop :=
  now.1 > t.sc ∨ (now.1 = t.sc ∧ now.2 ≥ t.ms)

instance (now : Int × Int) (t : elTimeEvent) : Decidable (expired now t) := by
  unfold expired; infer_instance

/-- The C `long` (64 bits, two's complement) a value wraps to:
`(x + 2^63) mod 2^64 - 2^63`. -/
def wrapLong (x : Int) : Int :=
  (x + 9223372036854775808) % 18446744073709551616 - 9223372036854775808

/-- Source `_el_time_add` (el.c 157-169); `cur` is the reading of `_el_time_get`.  C
division and remainder truncate towards zero; sums of `long` values wrap. -/
def _el_time_add (cur : Int × Int) (msc : Int) : Int × Int :=
  let now_sc := wrapLong (cur.1 + Int.tdiv msc 1000)
  let now_ms := wrapLong (cur.2 + Int.tmod msc 1000)
  if 1000 ≤ now_ms then (wrapLong (now_sc + 1), wrapLong (now_ms - 1000)) else (now_sc, now_ms)

/-- The effect of `EL_FREE(p)` on the memory: the node `p` is handed to `free`. -/
def freeNode (el : elHandle) (p : Nat) : elHandle :=
  { el with released := Function.update el.released p true }

/-- Source `_el_time_clear` (el.c 171-180), the loop with its variable `te`.  The
body reads `tp->free_proc` from the node, hands the node to `free` with
`EL_FREE(tp)` and then reads `te->next` from it. -/
def _el_time_clear_loop (env : Procs) :
    Nat → elHandle → Nat → List Event → Option (Res (elHandle × List Event))
  | 0, el, te, log => if te = 0 then some (Res.ok (el, log)) else none
  | fuel + 1, el, te, log =>
    if te = 0 then some (Res.ok (el, log))
    else
      let tp := te
      if el.released tp then some (Res.fault Fault.use_after_free log)
      else
        let r1 : elHandle × List Event :=
          if (el.mem tp).free_proc ≠ 0 then
            (env.free_proc (el.mem tp).free_proc el (el.mem tp).data,
              log ++ [Event.free_proc (el.mem tp).free_proc (el.mem tp).data])
          else (el, log)
        if r1.1.released tp then some (Res.fault Fault.double_free r1.2)
        else
          let el2 := freeNode r1.1 tp
          if el2.released te then
            some (Res.fault Fault.use_after_free (r1.2 ++ [Event.free_time tp]))
          else _el_time_clear_loop env fuel el2 (el2.mem te).next (r1.2 ++ [Event.free_time tp])

/-- Source `_el_time_clear` (el.c 171-180). -/
def _el_time_clear (env : Procs) (fuel : Nat) (el : elHandle) :
    Option (Res (elHandle × List Event)) :=
  _el_time_clear_loop env fuel el el.times []

/-- Source `_el_time_search` (el.c 182-191), the loop with its two variables. -/
def _el_time_search_loop (mem : Nat → elTimeEvent) : Nat → Nat → Nat → Option Nat
  | 0, te, nearest => if te = 0 then some nearest else none
  | fuel + 1, te, nearest =>
    if te = 0 then some nearest
    else
      let nearest1 :=
        if nearest = 0 ∨ (mem te).sc < (mem nearest).sc ∨
            ((mem te).sc = (mem nearest).sc ∧ (mem te).ms < (mem nearest).ms) then te
        else nearest
      _el_time_search_loop mem fuel (mem te).next nearest1

/-- Source `_el_time_search` (el.c 182-191); the result is the address of the nearest
node, `0` for `NULL`. -/
def _el_time_search (fuel : Nat) (el : elHandle) : Option Nat :=
  _el_time_search_loop el.mem fuel el.times 0

/-- The block `if( tp )` of `_el_time_process` on the node `tp` (el.c 213-218,
without `processed++`): `time_proc` when the node has one, then `free_proc`
when it has one, then `EL_FREE(tp)`.  The two function pointers are read from
the node when their tests are reached. -/
def fireNode (env : Procs) (el : elHandle) (tp : Nat) (log : List Event) :
    Res (elHandle × List Event) :=
  if el.released tp then Res.fault Fault.use_after_free log
  else
    let r2 : elHandle × List Event :=
      if (el.mem tp).time_proc ≠ 0 then
        (env.time_proc (el.mem tp).time_proc el (el.mem tp).id (el.mem tp).data,
          log ++ [Event.time_proc (el.mem tp).time_proc (el.mem tp).id (el.mem tp).data])
      else (el, log)
    if r2.1.released tp then Res.fault Fault.use_after_free r2.2
    else
      let r3 : elHandle × List Event :=
        if (r2.1.mem tp).free_proc ≠ 0 then
          (env.free_proc (r2.1.mem tp).free_proc r2.1 (r2.1.mem tp).data,
            r2.2 ++ [Event.free_proc (r2.1.mem tp).free_proc (r2.1.mem tp).data])
        else r2
      if r3.1.released tp then Res.fault Fault.double_free r3.2
      else Res.ok (freeNode r3.1 tp, r3.2 ++ [Event.free_time tp])

/-- Source `_el_time_process` (el.c 193-224), the loop with its variables `te`, `tp`
and `processed`.  `now` is the reading of `_el_time_get`.  `EL_FREE(tp)` also
sets `tp` to `NULL`.  The body reads `te->sc` and `te->ms` at its start and
`te->next` at its end, the latter also when `te` is the node that `EL_FREE`
has just handed to `free`. -/
def _el_time_process_loop (env : Procs) (now : Int × Int) :
    Nat → elHandle → Nat → Nat → Int → List Event →
      Option (Res (elHandle × Int × List Event))
  | 0, el, te, _, processed, log => if te = 0 then some (Res.ok (el, processed, log)) else none
  | fuel + 1, el, te, tp, processed, log =>
    if te = 0 then some (Res.ok (el, processed, log))
    else if el.released te then some (Res.fault Fault.use_after_free log)
    else
      let el1 := if expired now (el.mem te) then unlink el te else el
      let tp1 := if expired now (el.mem te) then te else tp
      if tp1 ≠ 0 then
        match fireNode env el1 tp1 log with
        | Res.fault f l => some (Res.fault f l)
        | Res.ok (el2, log2) =>
          if el2.released te then some (Res.fault Fault.use_after_free log2)
          else _el_time_process_loop env now fuel el2 (el2.mem te).next 0 (processed + 1) log2
      else _el_time_process_loop env now fuel el1 (el1.mem te).next tp1 processed log

/-- Source `_el_time_process` (el.c 193-224). -/
def _el_time_process (env : Procs) (now : Int × Int) (fuel : Nat) (el : elHandle) :
    Option (Res (elHandle × Int × List Event)) :=
  _el_time_process_loop env now fuel el el.times 0 0 []

/-- Source `el_time_add` (el.c 336-364).  `p` is the address `calloc` returned (`0`
when it failed), from then on a node in use, and `cur` the reading of the
clock. -/
def el_time_add (p : Nat) (cur : Int × Int) (el : elHandle) (ms : Int)
    (time_proc : Nat) (data : Nat) (free_proc : Nat) : Int × elHandle :=
  if p = 0 then (EL_ERR, el)
  else
    let num1 := wrapLong (el.num + 1)
    let num2 := if 0 > num1 then 1 else num1
    let d := _el_time_add cur ms
    let te : elTimeEvent :=
      { sc := d.1, ms := d.2, id := num2, time_proc := time_proc, free_proc := free_proc,
        data := data, prev := 0, next := 0 }
    let el1 : elHandle :=
      { el with num := num2, mem := Function.update el.mem p te,
                released := Function.update el.released p false }
    if el1.times = 0 then (te.id, { el1 with times := p })
    else
      let el2 := setNext el1 p el1.times
      let el3 := setPrev el2 el2.times p
      ((el3.mem p).id, { el3 with times := p })

/-- Source `el_time_del` (el.c 366-383), the loop with its variable `te`.  The
function returns right after `EL_FREE(te)`. -/
def el_time_del_loop (env : Procs) (id : Int) :
    Nat → elHandle → Nat → Option (Res (elHandle × List Event))
  | 0, el, te => if te = 0 then some (Res.ok (el, [])) else none
  | fuel + 1, el, te =>
    if te = 0 then some (Res.ok (el, []))
    else if el.released te then some (Res.fault Fault.use_after_free [])
    else if (el.mem te).id = id then
      let el1 := unlink el te
      let r : elHandle × List Event :=
        if (el1.mem te).free_proc ≠ 0 then
          (env.free_proc (el1.mem te).free_proc el1 (el1.mem te).data,
            [Event.free_proc (el1.mem te).free_proc (el1.mem te).data])
        else (el1, [])
      if r.1.released te then some (Res.fault Fault.double_free r.2)
      else some (Res.ok (freeNode r.1 te, r.2 ++ [Event.free_time te]))
    else el_time_del_loop env id fuel el (el.mem te).next

/-- Source `el_time_del` (el.c 366-383). -/
def el_time_del (env : Procs) (fuel : Nat) (el : elHandle) (id : Int) :
    Option (Res (elHandle × List Event)) :=
  el_time_del_loop env id fuel el el.times

/-- Source `el_destroy` (el.c 294-301): the calls it makes, in order. -/
def el_destroy (env : Procs) (fuel : Nat) (el : elHandle) : Option (Res (List Event)) :=
  match _el_time_clear_loop env fuel el el.times [Event.epoll_destroy] with
  | none => none
  | some (Res.fault f log) => some (Res.fault f log)
  | some (Res.ok (el1, log1)) =>
    match _el_file_clear_loop env fuel 0 el1 log1 with
    | none => none
    | some (_, log2) => some (Res.ok (log2 ++ [Event.free_handle]))

/-! ## One tick: `_el_epoll`, `_el_process` -/

/-- The fields of `struct epoll_event` the loop uses: `events` and `data.fd`. -/
structure epoll_event where
  events : Int
  fd : Nat
deriving DecidableEq

/-- The mask `_el_epoll` builds from the `events` word of a ready entry
(el.c 124-133). -/
def trigMask (events : Int) : Int :=
  let m0 : Int := 0
  let m1 := if Int.land EPOLLIN events ≠ 0 then Int.lor m0 EL_READABLE else m0
  let m2 := if Int.land EPOLLOUT events ≠ 0 then Int.lor m1 EL_WRITABLE else m1
  let m3 := if Int.land EPOLLERR events ≠ 0 then Int.lor m2 EL_WRITABLE else m2
  if Int.land EPOLLHUP events ≠ 0 then Int.lor m3 EL_WRITABLE else m3

/-- The loop of `_el_epoll` (el.c 122-137) from index `i` on, `n` entries to go. -/
def _el_epoll_fill (events : Nat → epoll_event) : Nat → Nat → elHandle → elHandle
  | 0, _, el => el
  | n + 1, i, el =>
    _el_epoll_fill events n (i + 1)
      { el with trigs :=
          Function.update el.trigs i { fd := (events i).fd, mask := trigMask (events i).events } }

/-- The C `int` (32 bits, two's complement) a value is converted to:
`(x + 2^31) mod 2^32 - 2^31`. -/
def wrapInt (x : Int) : Int :=
  (x + 2147483648) % 4294967296 - 2147483648

/-- The fourth argument of the `epoll_wait` call in `_el_epoll` (el.c 119-120):
the value of `ptv ? (ptv->tv_sec * 1000 + ptv->tv_usec / 1000) : -1`, computed
in `long`, converted to the `int` parameter `timeout` of `epoll_wait`.  `ptv` is `none`
for a `NULL` pointer and otherwise holds `tv_sec` and `tv_usec`. -/
def _el_epoll_timeout (ptv : Option (Int × Int)) : Int :=
  wrapInt
    (match ptv with
      | some tv => wrapLong (wrapLong (tv.1 * 1000) + Int.tdiv tv.2 1000)
      | none => -1)

/-- Source `_el_epoll` (el.c 115-140).  `epoll_wait timeout` is what the system call
answers: its result and the array of events it filled in.  `ptv` is `none` for
a `NULL` pointer and otherwise holds `tv_sec` and `tv_usec`. -/
def _el_epoll (epoll_wait : Int → Int × (Nat → epoll_event)) (el : elHandle)
    (ptv : Option (Int × Int)) : Int × elHandle :=
  let r := epoll_wait (_el_epoll_timeout ptv)
  if EL_ERR ≠ r.1 then (r.1, _el_epoll_fill r.2 r.1.toNat 0 el) else (r.1, el)

/-- The body of the dispatch loop of `_el_process` for the ready entry `i`
(el.c 256-263).  `fe` points to the entry `el->files[el->trigs[i].fd]`, whose
fields are read when each test and each call is reached.  Neither call is
guarded against a `NULL` callback. -/
def _el_process_body (env : Procs) (el : elHandle) (i : Nat) (log : List Event) :
    Res (elHandle × List Event) :=
  let fe := (el.trigs i).fd
  let mask := (el.trigs i).mask
  let fd := (el.trigs i).fd
  let r1 : Res (elHandle × List Event) :=
    if Int.land (Int.land EL_READABLE mask) (el.files fe).mask ≠ 0 then
      if (el.files fe).rfile_proc = 0 then Res.fault Fault.null_call log
      else
        Res.ok (env.file_proc (el.files fe).rfile_proc el fd (el.files fe).data mask,
          log ++ [Event.rfile_proc (el.files fe).rfile_proc fd (el.files fe).data mask])
    else Res.ok (el, log)
  match r1 with
  | Res.fault f l => Res.fault f l
  | Res.ok (e1, log1) =>
    if Int.land (Int.land EL_WRITABLE mask) (e1.files fe).mask ≠ 0 then
      if (e1.files fe).wfile_proc = 0 then Res.fault Fault.null_call log1
      else
        Res.ok (env.file_proc (e1.files fe).wfile_proc e1 fd (e1.files fe).data mask,
          log1 ++ [Event.wfile_proc (e1.files fe).wfile_proc fd (e1.files fe).data mask])
    else Res.ok (e1, log1)

/-- The dispatch loop `for( i = 0; processed > i; ++i )` of `_el_process`
(el.c 255-264) from index `i` on, `n` iterations to go. -/
def _el_process_loop (env : Procs) :
    Nat → Nat → elHandle → List Event → Res (elHandle × List Event)
  | 0, _, el, log => Res.ok (el, log)
  | n + 1, i, el, log =>
    match _el_process_body env el i log with
    | Res.fault f l => Res.fault f l
    | Res.ok (e1, log1) => _el_process_loop env n (i + 1) e1 log1

/-- The dispatch loop of `_el_process` (el.c 255-264) for the result
`processed` of `_el_epoll`. -/
def _el_process_files (env : Procs) (el : elHandle) (processed : Int) :
    Res (elHandle × List Event) :=
  _el_process_loop env processed.toNat 0 el []

/-- The pointer `ptv` that `_el_process` hands to `_el_epoll` (el.c 231-252):
`te` is the result of `_el_time_search` and `now` the reading of
`_el_time_get`; the result is `none` for `NULL` and otherwise holds `tv_sec`
and `tv_usec`.  The arithmetic is that of `long`: every difference, product
and sum wraps to 64 bits. -/
def _el_process_ptv (now : Int × Int) (el : elHandle) (te : Nat) : Option (Int × Int) :=
  if te ≠ 0 then
    let tms :=
      wrapLong (wrapLong (wrapLong (wrapLong ((el.mem te).sc - now.1) * 1000) + (el.mem te).ms)
        - now.2)
    if 0 < tms then some (Int.tdiv tms 1000, wrapLong (Int.tmod tms 1000 * 1000))
    else some (0, 0)
  else if 0 < el.wait then some (0, wrapLong (el.wait * 1000))
  else none

/-- Source `_el_process` (el.c 226-266).  `now1` is the clock reading taken for the
timeout, `now2` the reading during the sweep. -/
def _el_process (env : Procs) (epoll_wait : Int → Int × (Nat → epoll_event))
    (now1 now2 : Int × Int) (fuel : Nat) (el : elHandle) :
    Option (Res (elHandle × Int × List Event)) :=
  match _el_time_search fuel el with
  | none => none
  | some te =>
    let r := _el_epoll epoll_wait el (_el_process_ptv now1 el te)
    match _el_process_files env r.2 r.1 with
    | Res.fault f l => some (Res.fault f l)
    | Res.ok (d1, dlog) =>
      match _el_time_process_loop env now2 fuel d1 d1.times 0 0 dlog with
      | none => none
      | some (Res.fault f l) => some (Res.fault f l)
      | some (Res.ok (el3, n, log3)) => some (Res.ok (el3, r.1 + n, log3))

/-! ## `nio.h`, `nio.c` -/

def NIO_OK : Int := 0
def NIO_ERR : Int := -1
def NIO_DISCONNECT : Int := 1

def NIO_CONNECT_NONE : Int := 0
def NIO_CONNECT_NONBLOCK : Int := 1

/-- The values of `errno` the code tells apart (`<errno.h>`), and the others. -/
inductive Errno where
  | EAGAIN
  | EINTR
  | EINPROGRESS
  | other (n : Nat)
deriving DecidableEq

/-- The texts handed to `_nio_error`. -/
inductive ErrText where
  | gai_strerror
  | creating_socket
  | unable_to_bind
  | read
  | write
deriving DecidableEq

/-- The calls of the socket helpers that the statements speak about. -/
inductive Sys where
  | close (fd : Int)
  | freeaddrinfo
  | error (t : ErrText)
  | read (offset : Int) (n : Int)
  | write (offset : Int) (n : Int)
deriving DecidableEq

/-- One address of the list `getaddrinfo` returns, together with what the
system calls made for it answer: `socket`, `nio_enable_tcp_reuseaddr`,
`nio_enable_tcp_nonblock`, `connect`, and `errno` after a failed `connect`. -/
structure Candidate where
  sock : Int
  reuse : Int
  nonblock : Int
  conn : Int
  errno : Errno
deriving DecidableEq

/-- The text `snprintf(buf, size, "%d", v)` stores: the decimal text of `v`, of which at most
`size - 1` characters are stored. -/
def snprintf_d (size : Nat) (v : Int) : List Char :=
  (toString v).toList.take (size - 1)

/-- The labels `err:` and `end:` of `_nio_tcp_generic_connect` (nio.c 148-153). -/
def connect_err (c : Int) (log : List Sys) : Int × List Sys :=
  (c, (if NIO_ERR ≠ c then log ++ [Sys.close c] else log) ++ [Sys.freeaddrinfo])

/-- The loop over the addresses in `_nio_tcp_generic_connect` (nio.c 131-147)
and what follows it; `c` is the variable `c` on entry. -/
def connect_loop (flags : Int) : List Candidate → Int → List Sys → Int × List Sys
  | [], c, log => connect_err c (log ++ [Sys.error ErrText.creating_socket])
  | p :: ps, _, log =>
    if NIO_ERR = p.sock then connect_loop flags ps p.sock log
    else if NIO_ERR = p.reuse then connect_err p.sock log
    else if Int.land NIO_CONNECT_NONBLOCK flags ≠ 0 ∧ NIO_ERR = p.nonblock then
      connect_err p.sock log
    else if NIO_ERR = p.conn then
      if Int.land NIO_CONNECT_NONBLOCK flags ≠ 0 ∧ p.errno = Errno.EINPROGRESS then
        (p.sock, log ++ [Sys.freeaddrinfo])
      else connect_loop flags ps p.sock (log ++ [Sys.close p.sock])
    else (p.sock, log ++ [Sys.freeaddrinfo])

/-- Source `_nio_tcp_generic_connect` (nio.c 116-154).  `getaddrinfo sport` is what
the resolver answers for the service text: its result and the address list. -/
def _nio_tcp_generic_connect (getaddrinfo : List Char → Int × List Candidate) (port : Int)
    (flags : Int) : Int × List Sys :=
  let sport := snprintf_d (6 - 1) port
  let r := getaddrinfo sport
  if r.1 ≠ 0 then (NIO_ERR, [Sys.error ErrText.gai_strerror])
  else connect_loop flags r.2 (-1) []

/-- Source `nio_tcp_connect` (nio.c 214-216). -/
def nio_tcp_connect (getaddrinfo : List Char → Int × List Candidate) (port : Int) :
    Int × List Sys :=
  _nio_tcp_generic_connect getaddrinfo port NIO_CONNECT_NONE

/-- Source `nio_tcp_nonblock_connect` (nio.c 218-220). -/
def nio_tcp_nonblock_connect (getaddrinfo : List Char → Int × List Candidate) (port : Int) :
    Int × List Sys :=
  _nio_tcp_generic_connect getaddrinfo port NIO_CONNECT_NONBLOCK

/-- Source `nio_tcp_nonblock_read` (nio.c 269-300).  The list holds what the
successive `read` calls answer, the result and `errno`; `len` is `*len`.  The
function returns its result, the final `*len` and its calls; it is `none` when
the function is still in its loop after the last answer given.  The case
`EAGAIN` falls through to the case `EINTR` unless `count == *len`. -/
def nio_tcp_nonblock_read (count : Int) :
    List (Int × Errno) → Int → List Sys → Option (Int × Int × List Sys)
  | [], _, _ => none
  | (byte, errno) :: rest, len, log =>
    if byte = NIO_ERR then
      match errno with
      | Errno.EAGAIN =>
        if count = len then some (NIO_OK, len, log ++ [Sys.read len (count - len)])
        else nio_tcp_nonblock_read count rest (len + 0) (log ++ [Sys.read len (count - len)])
      | Errno.EINTR =>
        nio_tcp_nonblock_read count rest (len + 0) (log ++ [Sys.read len (count - len)])
      | _ =>
        some (NIO_ERR, len, log ++ [Sys.read len (count - len), Sys.error ErrText.read])
    else if byte = 0 then
      some (NIO_DISCONNECT, len, log ++ [Sys.read len (count - len), Sys.error ErrText.read])
    else nio_tcp_nonblock_read count rest (len + byte) (log ++ [Sys.read len (count - len)])

/-- Source `nio_tcp_write` (nio.c 302-315).  The list holds what the successive
`write` calls return; `buf` is the distance of the pointer `buf` from the start
of the caller's buffer and `totlen` the variable `totlen`.  Each call is
recorded with the offset `buf + totlen` it starts at and its length
`count - totlen`.  The result is the return value and the calls; it is `none`
when the function is still in its loop after the last answer given. -/
def nio_tcp_write_loop (count : Int) : List Int → Int → Int → List Sys → Option (Int × List Sys)
  | [], _, totlen, log => if totlen ≠ count then none else some (totlen, log)
  | byte :: rest, buf, totlen, log =>
    if totlen ≠ count then
      if NIO_ERR = byte ∨ byte = 0 then
        some (if NIO_ERR = byte then byte else totlen,
          log ++ [Sys.write (buf + totlen) (count - totlen), Sys.error ErrText.write])
      else
        nio_tcp_write_loop count rest (buf + byte) (totlen + byte)
          (log ++ [Sys.write (buf + totlen) (count - totlen)])
    else some (totlen, log)

/-- Source `nio_tcp_write` (nio.c 302-315), entered with `buf` at the start of the
caller's buffer. -/
def nio_tcp_write (count : Int) (writes : List Int) : Option (Int × List Sys) :=
  nio_tcp_write_loop count writes 0 0 []

/-- Source `nio_tcp_read` (nio.c 254-267).  The list holds what the successive
`read` calls return; `buf` and `totlen` are as in `nio_tcp_write_loop`, and
each call is recorded with the offset `buf + totlen` it stores at and its
length `count - totlen`. -/
def nio_tcp_read_loop (count : Int) : List Int → Int → Int → List Sys → Option (Int × List Sys)
  | [], _, totlen, log => if totlen ≠ count then none else some (totlen, log)
  | byte :: rest, buf, totlen, log =>
    if totlen ≠ count then
      if NIO_ERR = byte ∨ byte = 0 then
        some (if NIO_ERR = byte then byte else totlen,
          log ++ [Sys.read (buf + totlen) (count - totlen), Sys.error ErrText.read])
      else
        nio_tcp_read_loop count rest (buf + byte) (totlen + byte)
          (log ++ [Sys.read (buf + totlen) (count - totlen)])
    else some (totlen, log)

/-- Source `nio_tcp_read` (nio.c 254-267), entered with `buf` at the start of the
caller's buffer. -/
def nio_tcp_read (count : Int) (reads : List Int) : Option (Int × List Sys) :=
  nio_tcp_read_loop count reads 0 0 []

/-- The address families of `<sys/socket.h>` (Linux values). -/
def AF_INET : Int := 2

/-- The address family `AF_INET6` of `<sys/socket.h>` (Linux value). -/
def AF_INET6 : Int := 10

/-- One address of the list `getaddrinfo` returns to `_nio_tcp_generic_server`,
together with what the calls made for it answer: `socket`,
`_nio_enable_tcp_v6only`, `nio_enable_tcp_linger`, `nio_enable_tcp_reuseaddr`
and `_nio_tcp_listen`. -/
structure ServerCandidate where
  sock : Int
  v6only : Int
  linger : Int
  reuse : Int
  listen : Int
deriving DecidableEq

/-- The labels `err:` and `end:` of `_nio_tcp_generic_server` (nio.c 187-192). -/
def server_err (s : Int) (log : List Sys) : Int × List Sys :=
  (s, (if NIO_ERR ≠ s then log ++ [Sys.close s] else log) ++ [Sys.freeaddrinfo])

/-- The loop over the addresses in `_nio_tcp_generic_server` (nio.c 172-186) and
what follows it; `s` is the variable `s` on entry. -/
def server_loop (family : Int) : List ServerCandidate → Int → List Sys → Int × List Sys
  | [], s, log => server_err s (log ++ [Sys.error ErrText.unable_to_bind])
  | p :: ps, _, log =>
    if NIO_ERR = p.sock then server_loop family ps p.sock log
    else if AF_INET6 = family ∧ NIO_ERR = p.v6only then server_err p.sock log
    else if NIO_ERR = p.linger then server_err p.sock log
    else if NIO_ERR = p.reuse then server_err p.sock log
    else if NIO_ERR = p.listen then server_err p.sock log
    else (p.sock, log ++ [Sys.freeaddrinfo])

/-- Source `_nio_tcp_generic_server` (nio.c 156-193).  `getaddrinfo sport` is what
the resolver answers for the service text: its result and the address list. -/
def _nio_tcp_generic_server (getaddrinfo : List Char → Int × List ServerCandidate)
    (port : Int) (family : Int) : Int × List Sys :=
  let sport := snprintf_d (6 - 1) port
  let r := getaddrinfo sport
  if r.1 ≠ 0 then (NIO_ERR, [Sys.error ErrText.gai_strerror])
  else server_loop family r.2 (-1) []

/-! ## Inputs used in the statements -/

/-- One call `el_file_add(el, d, mask, file_proc, data, free_proc)` together
with what `epoll_ctl` answers during it. -/
structure AddCall where
  ctl : Int → Nat → Int → Int
  mask : Int
  file_proc : Nat
  data : Nat
  free_proc : Nat

/-- A sequence of `el_file_add` calls on the descriptor `d`, results dropped. -/
def el_file_add_seq (d : Nat) : elHandle → List AddCall → elHandle
  | el, [] => el
  | el, c :: cs =>
    el_file_add_seq d (el_file_add c.ctl el d c.mask c.file_proc c.data c.free_proc).2 cs

/-- A loop of capacity 4 with an empty table and no timers. -/
def el0 : elHandle :=
  { size := 4, stop := 0, num := 0, wait := 0,
    files := fun _ => { mask := 0, rfile_proc := 0, wfile_proc := 0, free_proc := 0, data := 0 },
    trigs := fun _ => { fd := 0, mask := 0 },
    times := 0,
    mem := fun _ =>
      { sc := 0, ms := 0, id := 0, time_proc := 0, free_proc := 0, data := 0, prev := 0, next := 0 },
    released := fun _ => false }

/-- A table of functions none of which touches the loop. -/
def idleProcs : Procs :=
  { file_proc := fun _ el _ _ _ => el,
    time_proc := fun _ el _ _ => el,
    free_proc := fun _ el _ => el }

/-- The loop `el0` after `el_file_add(el, 1, EL_READABLE|EL_FREEABLE, 7, 9, 8)`
and `el_file_add(el, 3, EL_WRITABLE|EL_FREEABLE, 6, 5, 8)`. -/
def el2files : elHandle :=
  (el_file_add (fun _ _ _ => 0) (el_file_add (fun _ _ _ => 0) el0 1 5 7 9 8).2 3 6 6 5 8).2

/-- The nodes at the addresses `l`, in this order, are the list that starts at
`hd`: each is a non-null address, `next` leads from each to the following one
and from the last to `NULL`, `prev` leads back, and the `prev` of the first
node holds `p`.  The timer list of a loop `el` is `l` when
`IsDll el.mem 0 el.times l`. -/
def IsDll (mem : Nat → elTimeEvent) : Nat → Nat → List Nat → Prop
  | _, hd, [] => hd = 0
  | p, hd, a :: l => hd = a ∧ a ≠ 0 ∧ (mem a).prev = p ∧ IsDll mem a (mem a).next l

instance instDecidableIsDll (mem : Nat → elTimeEvent) :
    (l : List Nat) → (p hd : Nat) → Decidable (IsDll mem p hd l)
  | [], _, hd => inferInstanceAs (Decidable (hd = 0))
  | a :: l, p, hd =>
    have := instDecidableIsDll mem l a (mem a).next
    inferInstanceAs (Decidable (hd = a ∧ a ≠ 0 ∧ (mem a).prev = p ∧ IsDll mem a (mem a).next l))

/-- The calls the sweep owes to one expired node: the callback when there is
one, then the destructor when there is one, then the release of the node. -/
def fireEvents (t : elTimeEvent) (a : Nat) : List Event :=
  (if t.time_proc ≠ 0 then [Event.time_proc t.time_proc t.id t.data] else []) ++
  (if t.free_proc ≠ 0 then [Event.free_proc t.free_proc t.data] else []) ++
  [Event.free_time a]

/-- The functions of the table leave the timer list alone: neither the head
`el->times` nor any node is changed, allocated or released by a timer callback
or a destructor. -/
def TimersUntouched (env : Procs) : Prop :=
  (∀ f el id d, (env.time_proc f el id d).times = el.times ∧
    (env.time_proc f el id d).mem = el.mem ∧
    (env.time_proc f el id d).released = el.released) ∧
  (∀ f el d, (env.free_proc f el d).times = el.times ∧ (env.free_proc f el d).mem = el.mem ∧
    (env.free_proc f el d).released = el.released)

/-- Two memories hold the same timers: they differ at most in the links. -/
def SameData (m1 m2 : Nat → elTimeEvent) : Prop :=
  ∀ a, (m1 a).sc = (m2 a).sc ∧ (m1 a).ms = (m2 a).ms ∧ (m1 a).id = (m2 a).id ∧
    (m1 a).time_proc = (m2 a).time_proc ∧ (m1 a).free_proc = (m2 a).free_proc ∧
    (m1 a).data = (m2 a).data

/-- The loop `el0` after three `el_time_add` calls at the clock reading
`(100, 990)`: delays 50, 10 and 200 ms, nodes allocated at 1, 2 and 3, the
first two with callback 11 and destructor 12, the third with callback 11 only. -/
def el3timers : elHandle :=
  (el_time_add 3 (100, 990)
    (el_time_add 2 (100, 990) (el_time_add 1 (100, 990) el0 50 11 21 12).2 10 11 22 12).2
    200 11 23 0).2

/-- The destructors of the table leave the loop alone: the capacity, the
descriptor table and the timer nodes are as before the call. -/
def DestructorsInert (env : Procs) : Prop :=
  ∀ f el d, (env.free_proc f el d).size = el.size ∧ (env.free_proc f el d).files = el.files ∧
    (env.free_proc f el d).mem = el.mem

/-- The calls teardown owes to the `n` table entries from index `i` on: the
destructor of each entry that holds one, in index order. -/
def fileClearEvents (files : Nat → elFileEvent) : Nat → Nat → List Event
  | 0, _ => []
  | n + 1, i =>
    (if (files i).free_proc ≠ 0 then [Event.free_proc (files i).free_proc (files i).data]
      else []) ++ fileClearEvents files n (i + 1)

/-- A call is the call of a destructor. -/
def Event.isDestructor : Event → Bool
  | Event.free_proc _ _ => true
  | _ => false

/-- The loop `el2files` (descriptors 1 and 3 registered with destructor 8)
after three `el_time_add` calls, each with callback 11 and destructor 12. -/
def el5 : elHandle :=
  (el_time_add 3 (100, 990)
    (el_time_add 2 (100, 990) (el_time_add 1 (100, 990) el2files 50 11 21 12).2 10 11 22 12).2
    200 11 23 12).2

/-- The deadline of `t1` is not later than that of `t2`, comparing seconds
first and milliseconds second. -/
def deadlineLE (t1 t2 : elTimeEvent) : Prop :=
  t1.sc < t2.sc ∨ (t1.sc = t2.sc ∧ t1.ms ≤ t2.ms)

/-- The first test of the dispatch of the ready entry `i` of `el`:
`EL_READABLE` is reported by the entry and is in the mask stored for its
descriptor. -/
def readDue (el : elHandle) (i : Nat) : Prop :=
  Int.land EL_READABLE (el.trigs i).mask ≠ 0 ∧
    Int.land EL_READABLE (el.files (el.trigs i).fd).mask ≠ 0

instance (el : elHandle) (i : Nat) : Decidable (readDue el i) := by
  unfold readDue; infer_instance

/-- The second test of the dispatch of the ready entry `i` of `el`, made against
the table of `tbl`: `EL_WRITABLE` is reported by the entry and is in the mask
that `tbl` stores for its descriptor. -/
def writeDue (tbl el : elHandle) (i : Nat) : Prop :=
  Int.land EL_WRITABLE (el.trigs i).mask ≠ 0 ∧
    Int.land EL_WRITABLE (tbl.files (el.trigs i).fd).mask ≠ 0

instance (tbl el : elHandle) (i : Nat) : Decidable (writeDue tbl el i) := by
  unfold writeDue; infer_instance

/-- The call of the read callback for the ready entry `i` of `el`, when it is
due. -/
def readCall (el : elHandle) (i : Nat) : List Event :=
  if readDue el i then
    [Event.rfile_proc (el.files (el.trigs i).fd).rfile_proc (el.trigs i).fd
      (el.files (el.trigs i).fd).data (el.trigs i).mask]
  else []

/-- The call of the write callback for the ready entry `i` of `el`, when it is
due by the table of `tbl`; callback and user data are those `tbl` stores. -/
def writeCall (tbl el : elHandle) (i : Nat) : List Event :=
  if writeDue tbl el i then
    [Event.wfile_proc (tbl.files (el.trigs i).fd).wfile_proc (el.trigs i).fd
      (tbl.files (el.trigs i).fd).data (el.trigs i).mask]
  else []

/-- The calls dispatch would make for the ready entries `i, ..., i+n-1` if it
went by the table as it stands in `el`: per entry the read callback when
`EL_READABLE` is both reported and in the stored mask, then the write callback
when `EL_WRITABLE` is. -/
def snapshotCalls (el : elHandle) : Nat → Nat → List Event
  | 0, _ => []
  | n + 1, i => readCall el i ++ writeCall el el i ++ snapshotCalls el n (i + 1)

/-- The loop an operation leaves behind; the loop `el` when it ended in a
fault. -/
def Res.loopOr (r : Res (elHandle × List Event)) (el : elHandle) : elHandle :=
  match r with
  | Res.ok (e, _) => e
  | Res.fault _ _ => el

/-- A table of functions in which the file callback 6 calls
`el_file_del(el, fd, EL_WRITABLE)` on its own descriptor and the file callback
7 calls `el_file_del(el, 2, EL_WRITABLE)`; nothing else touches the loop. -/
def delProcs : Procs :=
  { file_proc := fun f el fd _ _ =>
      if f = 6 then (el_file_del idleProcs el fd EL_WRITABLE).loopOr el
      else if f = 7 then (el_file_del idleProcs el 2 EL_WRITABLE).loopOr el
      else el,
    time_proc := fun _ el _ _ => el,
    free_proc := fun _ el _ => el }

/-- The loop `el0` with descriptor 1 registered for reading and writing with
callback 6, after `_el_epoll` reported it readable and writable. -/
def elTickA : elHandle :=
  (_el_epoll (fun _ => (1, fun _ => { events := 5, fd := 1 }))
    (el_file_add (fun _ _ _ => 0) el0 1 3 6 9 0).2 none).2

/-- The loop `el0` with descriptor 1 registered for reading with callback 7 and
descriptor 2 registered for writing with callback 5, after `_el_epoll` reported
descriptor 1 readable and descriptor 2 writable, in this order. -/
def elTickB : elHandle :=
  (_el_epoll
    (fun _ => (2, fun i => if i = 0 then { events := 1, fd := 1 } else { events := 4, fd := 2 }))
    (el_file_add (fun _ _ _ => 0) (el_file_add (fun _ _ _ => 0) el0 1 1 7 9 0).2 2 2 5 8 0).2
    none).2

/-- The loop as it stands when the dispatch of the ready entry `i` reaches its
second test: after the read callback, if that was due. -/
def afterRead (env : Procs) (el : elHandle) (i : Nat) : elHandle :=
  if readDue el i then
    env.file_proc (el.files (el.trigs i).fd).rfile_proc el (el.trigs i).fd
      (el.files (el.trigs i).fd).data (el.trigs i).mask
  else el

/-- The loop as it stands when the dispatch of the ready entry `i` is over:
after the write callback, if that was due at the second test. -/
def afterWrite (env : Procs) (el : elHandle) (i : Nat) : elHandle :=
  if writeDue (afterRead env el i) el i then
    env.file_proc ((afterRead env el i).files (el.trigs i).fd).wfile_proc (afterRead env el i)
      (el.trigs i).fd ((afterRead env el i).files (el.trigs i).fd).data (el.trigs i).mask
  else afterRead env el i

/-- The read callback of the ready entry `i` of `el` with the arguments dispatch
hands to it, as a function of the loop it is called on. -/
def readCallback (env : Procs) (el : elHandle) (i : Nat) : elHandle → elHandle :=
  fun e => env.file_proc (el.files (el.trigs i).fd).rfile_proc e (el.trigs i).fd
    (el.files (el.trigs i).fd).data (el.trigs i).mask

/-- The write callback of the ready entry `i` of `el` with the arguments
dispatch hands to it, as a function of the loop it is called on. -/
def writeCallback (env : Procs) (el : elHandle) (i : Nat) : elHandle → elHandle :=
  fun e => env.file_proc (el.files (el.trigs i).fd).wfile_proc e (el.trigs i).fd
    (el.files (el.trigs i).fd).data (el.trigs i).mask

/-- Two table entries are the same for the second test of a dispatch and the
call that follows it: they agree on the `EL_WRITABLE` bit of the mask, on the
write callback and on the user data. -/
def SameForWrite (a b : elFileEvent) : Prop :=
  Int.land EL_WRITABLE a.mask = Int.land EL_WRITABLE b.mask ∧ a.wfile_proc = b.wfile_proc ∧
    a.data = b.data

/-- Two table entries are the same for a dispatch: they agree on the
`EL_READABLE` and `EL_WRITABLE` bits of the mask, on the two callbacks and on
the user data (the `EL_FREEABLE` bit and the destructor may differ). -/
def SameForDispatch (a b : elFileEvent) : Prop :=
  Int.land EL_READABLE a.mask = Int.land EL_READABLE b.mask ∧ a.rfile_proc = b.rfile_proc ∧
    SameForWrite a b

/-- The function `g` on loops leaves alone what the dispatch of the `n` ready
entries of `el` has still to look at from the entry `k` on: those ready
entries, and of the table entries of their descriptors what counts for a
dispatch. -/
def KeepsPending (el : elHandle) (n k : Nat) (g : elHandle → elHandle) : Prop :=
  ∀ (e : elHandle) (j : Nat), k ≤ j → j < n →
    (g e).trigs j = e.trigs j ∧
    SameForDispatch ((g e).files (el.trigs j).fd) (e.files (el.trigs j).fd)

/-- A table of functions whose file callbacks use the interface of the loop:
callback 5 calls `el_file_del(el, fd, EL_WRITABLE)` on its own descriptor,
callback 7 registers descriptor 3 with `el_file_add(el, 3, EL_READABLE, 7, data, 0)`,
callback 9 asks for write events on its own descriptor with
`el_file_add(el, fd, EL_WRITABLE, 9, data, 0)`; `epoll_ctl` succeeds. -/
def apiProcs : Procs :=
  { file_proc := fun f el fd data _ =>
      if f = 5 then (el_file_del idleProcs el fd EL_WRITABLE).loopOr el
      else if f = 7 then (el_file_add (fun _ _ _ => 0) el 3 EL_READABLE 7 data 0).2
      else if f = 9 then (el_file_add (fun _ _ _ => 0) el fd EL_WRITABLE 9 data 0).2
      else el,
    time_proc := fun _ el _ _ => el,
    free_proc := fun _ el _ => el }

/-- The loop `el0` with descriptor 1 registered for reading only, with callback
9, after `_el_epoll` reported it readable and hung up (`EPOLLIN | EPOLLHUP`). -/
def elTickC : elHandle :=
  (_el_epoll (fun _ => (1, fun _ => { events := 17, fd := 1 }))
    (el_file_add (fun _ _ _ => 0) el0 1 1 9 4 0).2 none).2

/-- The loop `el0` with descriptor 2 registered for reading and writing with
callback 5, after `_el_epoll` reported it readable and writable. -/
def elTickD : elHandle :=
  (_el_epoll (fun _ => (1, fun _ => { events := 5, fd := 2 }))
    (el_file_add (fun _ _ _ => 0) el0 2 3 5 8 0).2 none).2

/-- The calls `nio_tcp_write` makes for the partial sizes given, when `written`
bytes have been written so far: each starts at twice the number of bytes
written so far and asks for the bytes not yet written. -/
def doubledWrites (count : Int) : List Int → Int → List Sys
  | [], _ => []
  | b :: rest, written =>
    Sys.write (2 * written) (count - written) :: doubledWrites count rest (written + b)

/-- The calls `nio_tcp_read` makes for the partial sizes given, when `got`
bytes have been read so far. -/
def doubledReads (count : Int) : List Int → Int → List Sys
  | [], _ => []
  | b :: rest, got =>
    Sys.read (2 * got) (count - got) :: doubledReads count rest (got + b)

/-- A resolver that knows one service: asked for the text `service` it answers
with the address list `l`, asked for any other text it fails (`EAI_SERVICE`). -/
def resolverFor {α : Type} (service : List Char) (l : List α) : List Char → Int × List α :=
  fun sport => if sport = service then (0, l) else (-8, [])

/-- The number a text of decimal digits denotes. -/
def decimalValue (text : List Char) : Nat :=
  text.foldl (fun acc c => 10 * acc + (c.toNat - 48)) 0

/-- The wait of one tick in milliseconds, as a number: with a nearest timer
`nearest`, the time left to its deadline at the clock reading `now`, and `0`
when the deadline has passed; without a timer (`nearest = 0`) the idle wait
when that is positive, and `-1` otherwise. -/
def tickTimeout (now : Int × Int) (el : elHandle) (nearest : Nat) : Int :=
  if nearest ≠ 0 then
    max 0 (((el.mem nearest).sc - now.1) * 1000 + (el.mem nearest).ms - now.2)
  else if 0 < el.wait then el.wait
  else -1

/-- The loop `el0` after `el_time_add(el, 3000000000, 11, 21, 0)` at the clock
reading `(100, 0)`: one timer, due 3000000 seconds later. -/
def elFarTimer : elHandle :=
  (el_time_add 1 (100, 0) el0 3000000000 11 21 0).2

/-- A table of functions in which the destructor 8 calls
`el_file_del(el, 1, EL_READABLE)`, dropping the read interest of descriptor 1;
nothing else touches the loop. -/
def dropReadProcs : Procs :=
  { file_proc := fun _ el _ _ _ => el,
    time_proc := fun _ el _ _ => el,
    free_proc := fun f el _ =>
      if f = 8 then (el_file_del idleProcs el 1 EL_READABLE).loopOr el else el }

/-- The loop `el0` with the idle wait 9223372036854776 ms, as
`el_create(4, 9223372036854776)` sets it: no descriptor, no timer. -/
def elLongWait : elHandle :=
  { el0 with wait := 9223372036854776 }

/-- The loop `el0` after `el_time_add(el, LONG_MIN, 11, 21, 0)` at the clock
reading `(100, 990)`: one timer, with a deadline far in the past. -/
def elLongAgo : elHandle :=
  (el_time_add 1 (100, 990) el0 (-9223372036854775808) 11 21 0).2

/-- The value `x` is one of C `long`: no operation with this result overflows. -/
def InLong (x : Int) : Prop :=
  -9223372036854775808 ≤ x ∧ x ≤ 9223372036854775807

instance (x : Int) : Decidable (InLong x) := by
  unfold InLong; infer_instance

/-- The wait of a tick fits a `long`: with a nearest timer `nearest` the value
of `(te->sc - sc) * 1000 + te->ms - ms` (el.c 237), and without one
(`nearest = 0`) the product `el->wait * 1000` of a positive idle wait
(el.c 249). -/
def TimeoutInLong (now : Int × Int) (el : elHandle) (nearest : Nat) : Prop :=
  (nearest ≠ 0 →
    InLong (((el.mem nearest).sc - now.1) * 1000 + (el.mem nearest).ms - now.2)) ∧
  (nearest = 0 → 0 < el.wait → InLong (el.wait * 1000))

instance (now : Int × Int) (el : elHandle) (nearest : Nat) :
    Decidable (TimeoutInLong now el nearest) := by
  unfold TimeoutInLong; infer_instance

/-! # Properties -/

/-! ## Registration: `el_file_add`, `el_file_get` -/

theorem storeProcs_mask (e : elFileEvent) (mask : Int) (fp data frp : Nat) :
    (storeProcs e mask fp data frp).mask = e.mask := by
  unfold storeProcs; split_ifs <;> rfl

theorem storeProcs_data (e : elFileEvent) (mask : Int) (fp data frp : Nat) :
    (storeProcs e mask fp data frp).data = data := rfl

theorem storeProcs_rfile (e : elFileEvent) (mask : Int) (fp data frp : Nat) :
    (storeProcs e mask fp data frp).rfile_proc
      = if Int.land EL_READABLE mask ≠ 0 then fp else e.rfile_proc := by
  unfold storeProcs; split_ifs <;> rfl

theorem storeProcs_wfile (e : elFileEvent) (mask : Int) (fp data frp : Nat) :
    (storeProcs e mask fp data frp).wfile_proc
      = if Int.land EL_WRITABLE mask ≠ 0 then fp else e.wfile_proc := by
  unfold storeProcs; split_ifs <;> rfl

theorem storeProcs_free (e : elFileEvent) (mask : Int) (fp data frp : Nat) :
    (storeProcs e mask fp data frp).free_proc
      = if Int.land EL_FREEABLE mask ≠ 0 then frp else e.free_proc := by
  unfold storeProcs; split_ifs <;> rfl

theorem _el_epoll_add_snd (ctl : Int → Nat → Int → Int) (el : elHandle) (fd : Nat) (mask : Int) :
    (_el_epoll_add ctl el fd mask).2 = setMask el fd (Int.lor (el.files fd).mask mask) := by
  simp only [_el_epoll_add]
  split_ifs <;> rfl

theorem el_file_add_snd (ctl : Int → Nat → Int → Int) (el : elHandle) (fd : Nat) (mask : Int)
    (fp data frp : Nat) (h : fd < el.size) :
    (el_file_add ctl el fd mask fp data frp).2
      = setMask (setFile el fd (storeProcs (el.files fd) mask fp data frp)) fd
          (Int.lor (el.files fd).mask mask) := by
  unfold el_file_add
  rw [if_neg (Nat.not_le.mpr h), _el_epoll_add_snd]
  simp [setFile, storeProcs_mask]

theorem el_file_add_out (ctl : Int → Nat → Int → Int) (el : elHandle) (fd : Nat) (mask : Int)
    (fp data frp : Nat) (h : el.size ≤ fd) :
    el_file_add ctl el fd mask fp data frp = (EL_ERR, el) := by
  unfold el_file_add
  rw [if_pos h]

theorem el_file_add_size (ctl : Int → Nat → Int → Int) (el : elHandle) (fd : Nat) (mask : Int)
    (fp data frp : Nat) : (el_file_add ctl el fd mask fp data frp).2.size = el.size := by
  by_cases h : el.size ≤ fd
  · rw [el_file_add_out _ _ _ _ _ _ _ h]
  · rw [el_file_add_snd _ _ _ _ _ _ _ (Nat.not_le.mp h)]; rfl

theorem el_file_add_other (ctl : Int → Nat → Int → Int) (el : elHandle) (fd : Nat) (mask : Int)
    (fp data frp : Nat) (i : Nat) (hi : i ≠ fd) :
    (el_file_add ctl el fd mask fp data frp).2.files i = el.files i := by
  by_cases h : el.size ≤ fd
  · rw [el_file_add_out _ _ _ _ _ _ _ h]
  · rw [el_file_add_snd _ _ _ _ _ _ _ (Nat.not_le.mp h)]
    simp [setMask, setFile, Function.update_noteq hi]

theorem el_file_add_entry (ctl : Int → Nat → Int → Int) (el : elHandle) (fd : Nat) (mask : Int)
    (fp data frp : Nat) (h : fd < el.size) :
    (el_file_add ctl el fd mask fp data frp).2.files fd
      = { storeProcs (el.files fd) mask fp data frp with
          mask := Int.lor (el.files fd).mask mask } := by
  rw [el_file_add_snd _ _ _ _ _ _ _ h]
  simp [setMask, setFile]

theorem el_file_add_mask (ctl : Int → Nat → Int → Int) (el : elHandle) (fd : Nat) (mask : Int)
    (fp data frp : Nat) (h : fd < el.size) :
    ((el_file_add ctl el fd mask fp data frp).2.files fd).mask
      = Int.lor (el.files fd).mask mask := by
  rw [el_file_add_entry _ _ _ _ _ _ _ h]

theorem el_file_add_seq_size (d : Nat) (cs : List AddCall) :
    ∀ el : elHandle, (el_file_add_seq d el cs).size = el.size := by
  induction cs with
  | nil => intro el; rfl
  | cons c cs ih => intro el; simp [el_file_add_seq, ih, el_file_add_size]

theorem el_file_add_seq_other (d : Nat) (cs : List AddCall) (i : Nat) (hi : i ≠ d) :
    ∀ el : elHandle, (el_file_add_seq d el cs).files i = el.files i := by
  induction cs with
  | nil => intro el; rfl
  | cons c cs ih => intro el; simp [el_file_add_seq, ih, el_file_add_other _ _ _ _ _ _ _ _ hi]

theorem el_file_add_seq_mask (d : Nat) (cs : List AddCall) :
    ∀ el : elHandle, d < el.size →
      ((el_file_add_seq d el cs).files d).mask
        = cs.foldl (fun acc c => Int.lor acc c.mask) (el.files d).mask := by
  induction cs with
  | nil => intro el _; rfl
  | cons c cs ih =>
    intro el h
    simp only [el_file_add_seq, List.foldl_cons]
    rw [ih _ (by rw [el_file_add_size]; exact h), el_file_add_mask _ _ _ _ _ _ _ h]

/-- C2, as stated, fails: with capacity 4 and an empty table, the call
`el_file_add(el, 1, EL_READABLE, 7, 9, 0)` during which `epoll_ctl` fails
returns `EL_ERR` and has changed entry 1 (mask, read callback and data). -/
theorem el_file_add_backend_failure_changes_entry :
    (el_file_add (fun _ _ _ => -1) el0 1 EL_READABLE 7 9 0).1 = EL_ERR ∧
    (el_file_add (fun _ _ _ => -1) el0 1 EL_READABLE 7 9 0).2.files 1 ≠ el0.files 1 ∧
    (el_file_add (fun _ _ _ => -1) el0 1 EL_READABLE 7 9 0).2.files 1
      = { mask := 1, rfile_proc := 7, wfile_proc := 0, free_proc := 0, data := 9 } := by
  decide

/-- C2, amended: when `el_file_add` returns `EL_ERR` because `fd >= size`, the
loop is exactly as before the call.  When it returns `EL_ERR` with `fd < size`,
`epoll_ctl` has failed, every entry other than `fd` is unchanged, and entry
`fd` holds the stores the call makes before it registers: the mask is the old
one OR-ed with `mask`, the callbacks are replaced per requested bit, the data
is replaced. -/
theorem el_file_add_err_table (ctl : Int → Nat → Int → Int) (el : elHandle) (fd : Nat)
    (mask : Int) (fp data frp : Nat)
    (herr : (el_file_add ctl el fd mask fp data frp).1 = EL_ERR) :
    (el.size ≤ fd → (el_file_add ctl el fd mask fp data frp).2 = el) ∧
    (fd < el.size →
      ctl (if EL_NONE = (el.files fd).mask then EPOLL_CTL_ADD else EPOLL_CTL_MOD) fd
          (eeEvents (Int.lor (el.files fd).mask mask)) = EL_ERR ∧
      (∀ i, i ≠ fd → (el_file_add ctl el fd mask fp data frp).2.files i = el.files i) ∧
      (el_file_add ctl el fd mask fp data frp).2.files fd =
        { mask := Int.lor (el.files fd).mask mask,
          rfile_proc := if Int.land EL_READABLE mask ≠ 0 then fp else (el.files fd).rfile_proc,
          wfile_proc := if Int.land EL_WRITABLE mask ≠ 0 then fp else (el.files fd).wfile_proc,
          free_proc := if Int.land EL_FREEABLE mask ≠ 0 then frp else (el.files fd).free_proc,
          data := data }) := by
  refine ⟨fun h => by rw [el_file_add_out _ _ _ _ _ _ _ h], fun h => ⟨?_, ?_, ?_⟩⟩
  · have h1 : ¬ el.size ≤ fd := Nat.not_le.mpr h
    simp only [el_file_add, if_neg h1, _el_epoll_add] at herr
    simp only [setMask, setFile, Function.update_same, storeProcs_mask] at herr
    by_contra hne
    rw [if_neg (fun hh => hne hh.symm)] at herr
    have h01 : EL_OK ≠ EL_ERR := by decide
    exact h01 herr
  · intro i hi
    exact el_file_add_other _ _ _ _ _ _ _ _ hi
  · rw [el_file_add_entry _ _ _ _ _ _ _ h]
    simp [storeProcs_rfile, storeProcs_wfile, storeProcs_free, storeProcs_data]

theorem el_file_add_err_table_witness :
    (el_file_add (fun _ _ _ => -1) el0 2 EL_WRITABLE 5 6 0).1 = EL_ERR ∧
    ((el_file_add (fun _ _ _ => -1) el0 2 EL_WRITABLE 5 6 0).2.files 2).wfile_proc = 5 ∧
    (el_file_add (fun _ _ _ => -1) el0 2 EL_WRITABLE 5 6 0).2.files 3 = el0.files 3 := by
  have h := el_file_add_err_table (fun _ _ _ => -1) el0 2 EL_WRITABLE 5 6 0 (by decide)
  have h2 := h.2 (by decide)
  refine ⟨by decide, ?_, h2.2.1 3 (by decide)⟩
  rw [h2.2.2]
  decide

/-- C3: starting from an entry `d < size` whose mask is `EL_NONE`, after any
sequence of `el_file_add` calls on `d` (whatever `epoll_ctl` answers in each),
`el_file_get(d)` is the bitwise OR of the masks passed, and every other entry
of the table is unchanged. -/
theorem el_file_get_after_adds (el : elHandle) (d : Nat) (cs : List AddCall)
    (hd : d < el.size) (h0 : (el.files d).mask = EL_NONE) :
    el_file_get (el_file_add_seq d el cs) d = cs.foldl (fun acc c => Int.lor acc c.mask) 0 ∧
    ∀ i, i ≠ d → (el_file_add_seq d el cs).files i = el.files i := by
  refine ⟨?_, fun i hi => el_file_add_seq_other d cs i hi el⟩
  unfold el_file_get
  rw [el_file_add_seq_size, if_neg (Nat.not_le.mpr hd), el_file_add_seq_mask d cs el hd, h0]
  rfl

theorem el_file_get_after_adds_witness :
    el_file_get (el_file_add_seq 1 el0
      [⟨fun _ _ _ => 0, 1, 7, 9, 0⟩, ⟨fun _ _ _ => -1, 4, 0, 9, 8⟩, ⟨fun _ _ _ => 0, 2, 6, 9, 0⟩]) 1
      = 7 := by
  have h := (el_file_get_after_adds el0 1
    [⟨fun _ _ _ => 0, 1, 7, 9, 0⟩, ⟨fun _ _ _ => -1, 4, 0, 9, 8⟩, ⟨fun _ _ _ => 0, 2, 6, 9, 0⟩]
    (by decide) (by decide)).1
  rw [h]
  decide

/-! ## Removal: `el_file_del` -/

theorem land_freeable_clear (m : Int) :
    Int.land EL_FREEABLE (Int.land m (Int.lnot EL_FREEABLE)) = 0 := by
  cases m with
  | ofNat n =>
    show ((4 &&& Nat.ldiff n 4 : Nat) : Int) = 0
    have h : (4 &&& Nat.ldiff n 4 : Nat) = 0 := by
      apply Nat.eq_of_testBit_eq
      intro i
      rw [Nat.testBit_and, Nat.testBit_ldiff]
      cases h4 : Nat.testBit 4 i <;> simp [h4]
    rw [h]; rfl
  | negSucc n =>
    show ((Nat.ldiff 4 (n ||| 4) : Nat) : Int) = 0
    have h : (Nat.ldiff 4 (n ||| 4) : Nat) = 0 := by
      apply Nat.eq_of_testBit_eq
      intro i
      rw [Nat.testBit_ldiff, Nat.testBit_or]
      cases h4 : Nat.testBit 4 i <;> simp [h4]
    rw [h]; rfl

theorem land_writable_clear (m : Int) :
    Int.land EL_WRITABLE (Int.land m (Int.lnot EL_WRITABLE)) = 0 := by
  cases m with
  | ofNat n =>
    show ((2 &&& Nat.ldiff n 2 : Nat) : Int) = 0
    have h : (2 &&& Nat.ldiff n 2 : Nat) = 0 := by
      apply Nat.eq_of_testBit_eq
      intro i
      rw [Nat.testBit_and, Nat.testBit_ldiff]
      cases h2 : Nat.testBit 2 i <;> simp [h2]
    rw [h]; rfl
  | negSucc n =>
    show ((Nat.ldiff 2 (n ||| 2) : Nat) : Int) = 0
    have h : (Nat.ldiff 2 (n ||| 2) : Nat) = 0 := by
      apply Nat.eq_of_testBit_eq
      intro i
      rw [Nat.testBit_ldiff, Nat.testBit_or]
      cases h2 : Nat.testBit 2 i <;> simp [h2]
    rw [h]; rfl

theorem land_freeable_self : Int.land EL_FREEABLE EL_FREEABLE = EL_FREEABLE := by decide

theorem int_zero_land (x : Int) : Int.land 0 x = 0 := by
  cases x with
  | ofNat n => show ((0 &&& n : Nat) : Int) = 0; simp
  | negSucc n => show ((Nat.ldiff 0 n : Nat) : Int) = 0; simp [Nat.ldiff]

theorem land_pow_eq_zero_iff (k : Nat) (x : Int) :
    Int.land ((2 ^ k : Nat) : Int) x = 0 ↔ Int.testBit x k = false := by
  cases x with
  | ofNat n =>
    show ((2 ^ k &&& n : Nat) : Int) = 0 ↔ Nat.testBit n k = false
    rw [Int.natCast_eq_zero]
    constructor
    · intro h
      have h1 := congrArg (fun m => Nat.testBit m k) h
      simpa [Nat.testBit_and, Nat.testBit_two_pow] using h1
    · intro h
      apply Nat.eq_of_testBit_eq
      intro i
      rw [Nat.testBit_and, Nat.testBit_two_pow]
      by_cases hki : k = i
      · subst hki; simp [h]
      · simp [hki]
  | negSucc n =>
    show ((Nat.ldiff (2 ^ k) n : Nat) : Int) = 0 ↔ (!Nat.testBit n k) = false
    rw [Int.natCast_eq_zero]
    constructor
    · intro h
      have h1 := congrArg (fun m => Nat.testBit m k) h
      simpa [Nat.testBit_ldiff, Nat.testBit_two_pow] using h1
    · intro h
      apply Nat.eq_of_testBit_eq
      intro i
      rw [Nat.testBit_ldiff, Nat.testBit_two_pow]
      by_cases hki : k = i
      · subst hki; simp at h; simp [h]
      · simp [hki]

theorem land_freeable_land (m x : Int) (h : Int.land EL_FREEABLE m = 0) :
    Int.land EL_FREEABLE (Int.land m x) = 0 := by
  have h1 := (land_pow_eq_zero_iff 2 m).mp h
  apply (land_pow_eq_zero_iff 2 (Int.land m x)).mpr
  rw [Int.testBit_land, h1]; rfl

theorem el_file_del_fires (env : Procs) (el : elHandle) (d : Nat) (mask : Int)
    (hd : d < el.size) (hbit : Int.land (Int.land EL_FREEABLE mask) (el.files d).mask ≠ 0)
    (hf : (el.files d).free_proc ≠ 0) :
    el_file_del env el d mask
      = Res.ok
        (setFile (env.free_proc (el.files d).free_proc (_el_epoll_del el d mask) (el.files d).data)
          d
          { (env.free_proc (el.files d).free_proc (_el_epoll_del el d mask)
              (el.files d).data).files d with free_proc := 0 },
        [Event.free_proc (el.files d).free_proc (el.files d).data]) := by
  unfold el_file_del
  rw [if_neg (Nat.not_le.mpr hd)]
  simp only [hbit, ne_eq, not_false_eq_true, if_true]
  have h1 : ((_el_epoll_del el d mask).files d).free_proc = (el.files d).free_proc := by
    simp [_el_epoll_del, setMask, setFile]
  have h2 : ((_el_epoll_del el d mask).files d).data = (el.files d).data := by
    simp [_el_epoll_del, setMask, setFile]
  rw [h1, h2, if_neg hf]

theorem el_file_del_null (env : Procs) (el : elHandle) (d : Nat) (mask : Int)
    (hd : d < el.size) (hbit : Int.land (Int.land EL_FREEABLE mask) (el.files d).mask ≠ 0)
    (hf : (el.files d).free_proc = 0) :
    el_file_del env el d mask = Res.fault Fault.null_call [] := by
  unfold el_file_del
  rw [if_neg (Nat.not_le.mpr hd)]
  simp only [hbit, ne_eq, not_false_eq_true, if_true]
  have h1 : ((_el_epoll_del el d mask).files d).free_proc = (el.files d).free_proc := by
    simp [_el_epoll_del, setMask, setFile]
  rw [h1, if_pos hf]

theorem el_file_del_silent (env : Procs) (el : elHandle) (d : Nat) (mask : Int)
    (hbit : Int.land (Int.land EL_FREEABLE mask) (el.files d).mask = 0) :
    el_file_del env el d mask
      = Res.ok (if el.size ≤ d then el else _el_epoll_del el d mask, []) := by
  unfold el_file_del
  by_cases h : el.size ≤ d
  · rw [if_pos h, if_pos h]
  · rw [if_neg h, if_neg h]
    simp only [hbit, ne_eq, not_true_eq_false, if_false]

theorem el_file_del_second_null (env : Procs) (el : elHandle) (d f : Nat)
    (hd : d < el.size)
    (hbit : Int.land EL_FREEABLE (el.files d).mask ≠ 0)
    (hf : (el.files d).free_proc = f)
    (hf0 : f ≠ 0)
    (hsize : d < (env.free_proc f (_el_epoll_del el d EL_FREEABLE) (el.files d).data).size)
    (hset : Int.land EL_FREEABLE
      ((env.free_proc f (_el_epoll_del el d EL_FREEABLE) (el.files d).data).files d).mask ≠ 0) :
    ∃ el1 : elHandle,
      el_file_del env el d EL_FREEABLE = Res.ok (el1, [Event.free_proc f (el.files d).data]) ∧
      el_file_del env el1 d EL_FREEABLE = Res.fault Fault.null_call [] := by
  have hb : Int.land (Int.land EL_FREEABLE EL_FREEABLE) (el.files d).mask ≠ 0 := by
    rw [land_freeable_self]; exact hbit
  have h1 := el_file_del_fires env el d EL_FREEABLE hd hb (by rw [hf]; exact hf0)
  rw [hf] at h1
  refine ⟨_, h1, el_file_del_null env _ d EL_FREEABLE hsize ?_ ?_⟩
  · rw [land_freeable_self]
    simp only [setFile, Function.update_same]
    exact hset
  · simp [setFile]

theorem isDll_nil (mem : Nat → elTimeEvent) (p hd : Nat) : IsDll mem p hd [] ↔ hd = 0 :=
  Iff.rfl

theorem isDll_cons (mem : Nat → elTimeEvent) (p hd a : Nat) (l : List Nat) :
    IsDll mem p hd (a :: l) ↔
      hd = a ∧ a ≠ 0 ∧ (mem a).prev = p ∧ IsDll mem a (mem a).next l :=
  Iff.rfl

theorem isDll_head (mem : Nat → elTimeEvent) (p hd : Nat) (l : List Nat)
    (h : IsDll mem p hd l) : hd = l.headD 0 := by
  cases l with
  | nil => exact h
  | cons a l => exact h.1

theorem isDll_not_zero (mem : Nat → elTimeEvent) :
    ∀ (l : List Nat) (p hd : Nat), IsDll mem p hd l → ∀ x ∈ l, x ≠ 0 := by
  intro l
  induction l with
  | nil => intro p hd _ x hx; cases hx
  | cons a l ih =>
    intro p hd h x hx
    rcases List.mem_cons.mp hx with rfl | hx
    · exact h.2.1
    · exact ih _ _ h.2.2.2 x hx

theorem isDll_frame (mem mem1 : Nat → elTimeEvent) :
    ∀ (l : List Nat) (p hd : Nat), (∀ x ∈ l, mem1 x = mem x) →
      IsDll mem p hd l → IsDll mem1 p hd l := by
  intro l
  induction l with
  | nil => intro p hd _ h; exact h
  | cons a l ih =>
    intro p hd hx h
    have ha : mem1 a = mem a := hx a (List.mem_cons_self a l)
    refine ⟨h.1, h.2.1, by rw [ha]; exact h.2.2.1, ?_⟩
    rw [ha]
    exact ih _ _ (fun x hxl => hx x (List.mem_cons_of_mem a hxl)) h.2.2.2

theorem isDll_det (mem : Nat → elTimeEvent) :
    ∀ (l1 l2 : List Nat) (p1 p2 hd : Nat), IsDll mem p1 hd l1 → IsDll mem p2 hd l2 → l1 = l2 := by
  intro l1
  induction l1 with
  | nil =>
    intro l2 p1 p2 hd h1 h2
    cases l2 with
    | nil => rfl
    | cons b l2 =>
      have hz : hd = 0 := h1
      exact absurd (h2.1.symm.trans hz) h2.2.1
  | cons a l1 ih =>
    intro l2 p1 p2 hd h1 h2
    cases l2 with
    | nil =>
      have hz : hd = 0 := h2
      exact absurd (h1.1.symm.trans hz) h1.2.1
    | cons b l2 =>
      have hab : a = b := h1.1.symm.trans h2.1
      subst hab
      rw [ih l2 _ _ _ h1.2.2.2 h2.2.2.2]

theorem isDll_suffix (mem : Nat → elTimeEvent) :
    ∀ (l1 l2 : List Nat) (p hd a : Nat), IsDll mem p hd (l1 ++ a :: l2) →
      ∃ q, IsDll mem q a (a :: l2) := by
  intro l1
  induction l1 with
  | nil =>
    intro l2 p hd a h
    exact ⟨p, rfl, h.2.1, h.2.2.1, h.2.2.2⟩
  | cons b l1 ih =>
    intro l2 p hd a h
    exact ih l2 _ _ a h.2.2.2

theorem isDll_nodup (mem : Nat → elTimeEvent) :
    ∀ (l : List Nat) (p hd : Nat), IsDll mem p hd l → l.Nodup := by
  intro l
  induction l with
  | nil => intro p hd _; exact List.nodup_nil
  | cons a l ih =>
    intro p hd h
    refine List.nodup_cons.mpr ⟨?_, ih _ _ h.2.2.2⟩
    intro hmem
    obtain ⟨l1, l2, hl⟩ := List.append_of_mem hmem
    have ht := h.2.2.2
    rw [hl] at ht
    obtain ⟨q, hq⟩ := isDll_suffix mem l1 l2 _ _ a ht
    have h0 : IsDll mem p a (a :: l) := ⟨rfl, h.2.1, h.2.2.1, h.2.2.2⟩
    have heq := isDll_det mem _ _ _ _ _ hq h0
    have hlen := congrArg List.length heq
    rw [hl] at hlen
    simp at hlen
    omega

theorem isDll_prev_mem (mem : Nat → elTimeEvent) (a : Nat) (rest : List Nat) :
    ∀ (ks : List Nat) (p hd : Nat), ks ≠ [] → IsDll mem p hd (ks ++ a :: rest) →
      (mem a).prev ∈ ks := by
  intro ks
  induction ks with
  | nil => intro p hd h; exact absurd rfl h
  | cons k ks ih =>
    intro p hd _ h
    cases ks with
    | nil =>
      have h2 : IsDll mem k (mem k).next (a :: rest) := h.2.2.2
      rw [h2.2.2.1]
      exact List.mem_singleton.mpr rfl
    | cons k2 ks =>
      exact List.mem_cons_of_mem k (ih _ _ (List.cons_ne_nil k2 ks) h.2.2.2)

theorem isDll_reprev (mem mem1 : Nat → elTimeEvent) (a q n : Nat) (rest : List Nat)
    (h : IsDll mem a n rest) (hnd : rest.Nodup)
    (hn : n ≠ 0 → mem1 n = { mem n with prev := q })
    (ho : ∀ x ∈ rest, x ≠ n → mem1 x = mem x) :
    IsDll mem1 q n rest := by
  cases rest with
  | nil => exact h
  | cons r rest =>
    have hr : n = r := h.1
    subst hr
    have hm := hn h.2.1
    refine ⟨rfl, h.2.1, by rw [hm], ?_⟩
    have hnext : (mem1 n).next = (mem n).next := by rw [hm]
    rw [hnext]
    have hnot : n ∉ rest := (List.nodup_cons.mp hnd).1
    refine isDll_frame mem mem1 rest _ _ (fun x hx => ?_) h.2.2.2
    exact ho x (List.mem_cons_of_mem n hx) (fun hxn => hnot (hxn ▸ hx))

theorem isDll_remove_mid (mem mem1 : Nat → elTimeEvent) (a q n : Nat) (rest : List Nat)
    (hqa : (mem a).prev = q) (hna : (mem a).next = n)
    (hq : mem1 q = { mem q with next := n })
    (hn : n ≠ 0 → mem1 n = { mem n with prev := q })
    (ho : ∀ x, x ≠ q → x ≠ n → mem1 x = mem x) :
    ∀ (ks : List Nat) (p hd : Nat), ks ≠ [] → IsDll mem p hd (ks ++ a :: rest) →
      (ks ++ a :: rest).Nodup → IsDll mem1 p hd (ks ++ rest) := by
  intro ks
  induction ks with
  | nil => intro p hd h; exact absurd rfl h
  | cons k ks ih =>
    intro p hd _ h hnd
    have hnd2 : (ks ++ a :: rest).Nodup := (List.nodup_cons.mp hnd).2
    have hk : k ∉ ks ++ a :: rest := (List.nodup_cons.mp hnd).1
    cases ks with
    | nil =>
      have h2 : IsDll mem k (mem k).next (a :: rest) := h.2.2.2
      have hqk : q = k := hqa.symm.trans h2.2.2.1
      subst hqk
      have h3 : IsDll mem a n rest := hna ▸ h2.2.2.2
      have hndr : rest.Nodup := (List.nodup_cons.mp hnd2).2
      have hqr : q ∉ rest := fun hx => hk (List.mem_cons_of_mem a hx)
      refine ⟨h.1, h.2.1, by rw [hq]; exact h.2.2.1, ?_⟩
      have hnext : (mem1 q).next = n := by rw [hq]
      rw [hnext]
      exact isDll_reprev mem mem1 a q n rest h3 hndr hn
        (fun x hx hxn => ho x (fun hxq => hqr (hxq ▸ hx)) hxn)
    | cons k2 ks =>
      have h2 : IsDll mem k (mem k).next ((k2 :: ks) ++ a :: rest) := h.2.2.2
      have ih2 := ih k (mem k).next (List.cons_ne_nil k2 ks) h2 hnd2
      have hqmem : q ∈ k2 :: ks :=
        hqa ▸ isDll_prev_mem mem a rest (k2 :: ks) _ _ (List.cons_ne_nil k2 ks) h2
      have hkq : k ≠ q := fun hx => hk (List.mem_append_left _ (hx ▸ hqmem))
      obtain ⟨q2, hsuf⟩ := isDll_suffix mem (k2 :: ks) rest _ _ a h2
      have hnrest : n = rest.headD 0 := isDll_head mem a n rest (hna ▸ hsuf.2.2.2)
      have hkn : k ≠ n := by
        intro hx
        cases rest with
        | nil => exact h.2.1 (hx.trans hnrest)
        | cons r rest =>
          apply hk
          have hnr : n = r := hnrest
          rw [hx, hnr]
          exact List.mem_append_right _ (List.mem_cons_of_mem a (List.mem_cons_self r rest))
      have hmk : mem1 k = mem k := ho k hkq hkn
      refine ⟨h.1, h.2.1, by rw [hmk]; exact h.2.2.1, ?_⟩
      rw [hmk]
      exact ih2

theorem sameData_refl (m : Nat → elTimeEvent) : SameData m m :=
  fun _ => ⟨rfl, rfl, rfl, rfl, rfl, rfl⟩

theorem sameData_trans (m1 m2 m3 : Nat → elTimeEvent) (h12 : SameData m1 m2)
    (h23 : SameData m2 m3) : SameData m1 m3 := by
  intro a
  obtain ⟨a1, a2, a3, a4, a5, a6⟩ := h12 a
  obtain ⟨b1, b2, b3, b4, b5, b6⟩ := h23 a
  exact ⟨a1.trans b1, a2.trans b2, a3.trans b3, a4.trans b4, a5.trans b5, a6.trans b6⟩

theorem setNext_sameData (el : elHandle) (p v : Nat) : SameData (setNext el p v).mem el.mem := by
  intro x
  by_cases hx : x = p
  · subst hx; simp [setNext]
  · simp [setNext, Function.update_noteq hx]

theorem setPrev_sameData (el : elHandle) (p v : Nat) : SameData (setPrev el p v).mem el.mem := by
  intro x
  by_cases hx : x = p
  · subst hx; simp [setPrev]
  · simp [setPrev, Function.update_noteq hx]

theorem unlink_sameData (el : elHandle) (a : Nat) : SameData (unlink el a).mem el.mem := by
  have h1 : SameData
      (if (el.mem a).prev ≠ 0 then setNext el (el.mem a).prev (el.mem a).next
        else { el with times := (el.mem a).next }).mem el.mem := by
    by_cases hq : (el.mem a).prev ≠ 0
    · rw [if_pos hq]; exact setNext_sameData _ _ _
    · rw [if_neg hq]; exact sameData_refl _
  have h2 : ∀ el1 : elHandle, SameData el1.mem el.mem →
      SameData (if (el1.mem a).next ≠ 0 then setPrev el1 (el1.mem a).next (el1.mem a).prev
        else el1).mem el.mem := by
    intro el1 h
    by_cases hn : (el1.mem a).next ≠ 0
    · rw [if_pos hn]; exact sameData_trans _ _ _ (setPrev_sameData _ _ _) h
    · rw [if_neg hn]; exact h
  exact h2 _ h1

theorem unlink_of_prev (el : elHandle) (a : Nat) (hq : (el.mem a).prev ≠ 0)
    (haq : a ≠ (el.mem a).prev) (hqn : (el.mem a).prev ≠ (el.mem a).next) :
    (unlink el a).times = el.times ∧
    (unlink el a).mem (el.mem a).prev
      = { el.mem (el.mem a).prev with next := (el.mem a).next } ∧
    ((el.mem a).next ≠ 0 → (unlink el a).mem (el.mem a).next
      = { el.mem (el.mem a).next with prev := (el.mem a).prev }) ∧
    (∀ x, x ≠ (el.mem a).prev → x ≠ (el.mem a).next → (unlink el a).mem x = el.mem x) := by
  have h1 : (setNext el (el.mem a).prev (el.mem a).next).mem a = el.mem a := by
    simp [setNext, Function.update_noteq haq]
  have hu : unlink el a
      = if (el.mem a).next ≠ 0 then
          setPrev (setNext el (el.mem a).prev (el.mem a).next) (el.mem a).next (el.mem a).prev
        else setNext el (el.mem a).prev (el.mem a).next := by
    unfold unlink
    simp only [hq, ne_eq, not_false_eq_true, if_true, h1]
  rw [hu]
  by_cases hn : (el.mem a).next ≠ 0
  · rw [if_pos hn]
    refine ⟨rfl, ?_, fun _ => ?_, fun x hx hx2 => ?_⟩
    · simp [setPrev, setNext, Function.update_noteq hqn]
    · simp [setPrev, setNext, Function.update_noteq (Ne.symm hqn)]
    · simp [setPrev, setNext, Function.update_noteq hx, Function.update_noteq hx2]
  · rw [if_neg hn]
    refine ⟨rfl, by simp [setNext], fun h => absurd h hn, fun x hx _ => ?_⟩
    simp [setNext, Function.update_noteq hx]

theorem unlink_of_head (el : elHandle) (a : Nat) (hq : (el.mem a).prev = 0) :
    (unlink el a).times = (el.mem a).next ∧
    ((el.mem a).next ≠ 0 → (unlink el a).mem (el.mem a).next
      = { el.mem (el.mem a).next with prev := 0 }) ∧
    (∀ x, x ≠ (el.mem a).next → (unlink el a).mem x = el.mem x) := by
  have hu : unlink el a
      = if (el.mem a).next ≠ 0 then
          setPrev { el with times := (el.mem a).next } (el.mem a).next (el.mem a).prev
        else { el with times := (el.mem a).next } := by
    unfold unlink
    simp only [hq, ne_eq, not_true_eq_false, if_false]
  rw [hu]
  by_cases hn : (el.mem a).next ≠ 0
  · rw [if_pos hn]
    refine ⟨rfl, fun _ => ?_, fun x hx => ?_⟩
    · simp [setPrev, hq]
    · simp [setPrev, Function.update_noteq hx]
  · rw [if_neg hn]
    exact ⟨rfl, fun h => absurd h hn, fun x _ => rfl⟩

/-- Unlinking the node `a` of the timer list `ks ++ a :: rest` leaves the list
`ks ++ rest`, and the link `a->next` still leads to the first node of `rest`. -/
theorem unlink_isDll (el : elHandle) (ks : List Nat) (a : Nat) (rest : List Nat)
    (h : IsDll el.mem 0 el.times (ks ++ a :: rest)) :
    IsDll (unlink el a).mem 0 (unlink el a).times (ks ++ rest) ∧
    ((unlink el a).mem a).next = rest.headD 0 := by
  have hnd := isDll_nodup el.mem _ _ _ h
  have hnz := isDll_not_zero el.mem _ _ _ h
  obtain ⟨q2, hsuf⟩ := isDll_suffix el.mem ks rest _ _ a h
  have hnrest : (el.mem a).next = rest.headD 0 := isDll_head el.mem a _ rest hsuf.2.2.2
  have ha0 : a ≠ 0 := hsuf.2.1
  have hand : (a :: rest).Nodup := (List.nodup_append.mp hnd).2.1
  have har : a ∉ rest := (List.nodup_cons.mp hand).1
  have hndr : rest.Nodup := (List.nodup_cons.mp hand).2
  have hnin : (el.mem a).next ≠ 0 → (el.mem a).next ∈ rest := by
    intro hne
    cases rest with
    | nil => exact absurd hnrest hne
    | cons r rest => rw [hnrest]; exact List.mem_cons_self r rest
  have han : a ≠ (el.mem a).next := by
    intro hx
    exact har (hx ▸ hnin (hx ▸ ha0))
  cases ks with
  | nil =>
    have hq : (el.mem a).prev = 0 := h.2.2.1
    obtain ⟨ht, hn, ho⟩ := unlink_of_head el a hq
    refine ⟨?_, ?_⟩
    · rw [ht]
      exact isDll_reprev el.mem _ a 0 _ rest hsuf.2.2.2 hndr hn (fun x _ hxn => ho x hxn)
    · rw [ho a han]; exact hnrest
  | cons k ks =>
    have hqmem := isDll_prev_mem el.mem a rest (k :: ks) _ _ (List.cons_ne_nil k ks) h
    have hq0 : (el.mem a).prev ≠ 0 := hnz _ (List.mem_append_left _ hqmem)
    have haq : a ≠ (el.mem a).prev := by
      intro hx
      have hdis := (List.nodup_append.mp hnd).2.2
      have hmem2 : (el.mem a).prev ∈ a :: rest := by
        rw [← hx]; exact List.mem_cons_self a rest
      exact hdis hqmem hmem2
    have hqn : (el.mem a).prev ≠ (el.mem a).next := by
      intro hx
      have hdis := (List.nodup_append.mp hnd).2.2
      have hnmem : (el.mem a).next ∈ rest := hnin (by rw [← hx]; exact hq0)
      have hmem2 : (el.mem a).prev ∈ a :: rest := by
        rw [hx]; exact List.mem_cons_of_mem a hnmem
      exact hdis hqmem hmem2
    obtain ⟨ht, hq, hn, ho⟩ := unlink_of_prev el a hq0 haq hqn
    refine ⟨?_, ?_⟩
    · rw [ht]
      exact isDll_remove_mid el.mem _ a _ _ rest rfl rfl hq hn ho (k :: ks) 0 el.times
        (List.cons_ne_nil k ks) h hnd
    · rw [ho a haq han]; exact hnrest

/-! ## The sweep `_el_time_process` -/

theorem expired_congr (m1 m2 : Nat → elTimeEvent) (h : SameData m1 m2) (now : Int × Int)
    (a : Nat) : expired now (m1 a) ↔ expired now (m2 a) := by
  unfold expired
  rw [(h a).1, (h a).2.1]

theorem fireEvents_congr (m1 m2 : Nat → elTimeEvent) (h : SameData m1 m2) (a : Nat) :
    fireEvents (m1 a) a = fireEvents (m2 a) a := by
  obtain ⟨_, _, h3, h4, h5, h6⟩ := h a
  unfold fireEvents
  rw [h3, h4, h5, h6]

theorem unlink_released (el : elHandle) (te : Nat) : (unlink el te).released = el.released := by
  unfold unlink
  by_cases h1 : (el.mem te).prev ≠ 0
  · rw [if_pos h1]
    by_cases h2 : ((setNext el (el.mem te).prev (el.mem te).next).mem te).next ≠ 0
    · rw [if_pos h2]; rfl
    · rw [if_neg h2]; rfl
  · rw [if_neg h1]
    by_cases h2 : (el.mem te).next ≠ 0
    · rw [if_pos h2]; rfl
    · rw [if_neg h2]

theorem fireNode_spec (env : Procs) (henv : TimersUntouched env) (el : elHandle) (tp : Nat)
    (log : List Event) (hlive : el.released tp = false) :
    ∃ el2, fireNode env el tp log = Res.ok (el2, log ++ fireEvents (el.mem tp) tp) ∧
      el2.released tp = true := by
  obtain ⟨ht, hf⟩ := henv
  unfold fireNode fireEvents
  simp only [hlive, Bool.false_eq_true, if_false]
  by_cases h1 : (el.mem tp).time_proc ≠ 0
  · simp only [h1, ne_eq, not_false_eq_true, if_true]
    rw [(ht _ el _ _).2.2, (ht _ el _ _).2.1]
    simp only [hlive, Bool.false_eq_true, if_false]
    by_cases h2 : (el.mem tp).free_proc ≠ 0
    · simp only [h2, ne_eq, not_false_eq_true, if_true]
      rw [(hf _ _ _).2.2, (ht _ el _ _).2.2]
      simp only [hlive, Bool.false_eq_true, if_false]
      exact ⟨freeNode (env.free_proc (el.mem tp).free_proc
        (env.time_proc (el.mem tp).time_proc el (el.mem tp).id (el.mem tp).data) (el.mem tp).data) tp,
        by simp, by simp [freeNode]⟩
    · simp only [h2, ne_eq, if_false]
      rw [(ht _ el _ _).2.2]
      simp only [hlive, Bool.false_eq_true, if_false]
      exact ⟨freeNode (env.time_proc (el.mem tp).time_proc el (el.mem tp).id (el.mem tp).data) tp,
        by simp, by simp [freeNode]⟩
  · simp only [h1, ne_eq, if_false]
    simp only [hlive, Bool.false_eq_true, if_false]
    by_cases h2 : (el.mem tp).free_proc ≠ 0
    · simp only [h2, ne_eq, not_false_eq_true, if_true]
      rw [(hf _ _ _).2.2]
      simp only [hlive, Bool.false_eq_true, if_false]
      exact ⟨freeNode (env.free_proc (el.mem tp).free_proc el (el.mem tp).data) tp,
        by simp, by simp [freeNode]⟩
    · simp only [h2, ne_eq, if_false]
      simp only [hlive, Bool.false_eq_true, if_false]
      exact ⟨freeNode el tp,
        by simp, by simp [freeNode]⟩

theorem _el_time_process_loop_skips (env : Procs) (now : Int × Int) (el : elHandle)
    (tail : List Nat) (k : Nat) (processed : Int) (log : List Event) :
    ∀ (pre : List Nat) (p hd : Nat), IsDll el.mem p hd (pre ++ tail) →
      (∀ x ∈ pre, el.released x = false) → (∀ x ∈ pre, ¬ expired now (el.mem x)) →
      ∃ q hd2, IsDll el.mem q hd2 tail ∧
        _el_time_process_loop env now (pre.length + k) el hd 0 processed log
          = _el_time_process_loop env now k el hd2 0 processed log := by
  intro pre
  induction pre with
  | nil =>
    intro p hd hl _ _
    refine ⟨p, hd, hl, ?_⟩
    simp
  | cons x pre ih =>
    intro p hd hl hlive hnot
    obtain ⟨hhd, hx0, _, hrest⟩ := hl
    obtain ⟨q, hd2, hq, hrun⟩ := ih x (el.mem x).next hrest
      (fun y hy => hlive y (List.mem_cons_of_mem _ hy))
      (fun y hy => hnot y (List.mem_cons_of_mem _ hy))
    refine ⟨q, hd2, hq, ?_⟩
    have hlen : (x :: pre).length + k = (pre.length + k) + 1 := by simp; omega
    rw [hlen, hhd, ← hrun]
    have hxl := hlive x (List.mem_cons_self _ _)
    have hxe := hnot x (List.mem_cons_self _ _)
    simp only [_el_time_process_loop]
    rw [if_neg hx0]
    simp only [hxl, Bool.false_eq_true, if_false, hxe, ne_eq, not_true_eq_false]

theorem _el_time_process_loop_fires (env : Procs) (henv : TimersUntouched env) (now : Int × Int)
    (el : elHandle) (a : Nat) (k : Nat) (processed : Int) (log : List Event)
    (ha0 : a ≠ 0) (hlive : el.released a = false) (hexp : expired now (el.mem a)) :
    _el_time_process_loop env now (k + 1) el a 0 processed log
      = some (Res.fault Fault.use_after_free (log ++ fireEvents (el.mem a) a)) := by
  obtain ⟨el2, hrun, hrel⟩ := fireNode_spec env henv (unlink el a) a log
    (by rw [unlink_released]; exact hlive)
  rw [fireEvents_congr _ _ (unlink_sameData el a) a] at hrun
  simp only [_el_time_process_loop]
  rw [if_neg ha0]
  simp only [hlive, Bool.false_eq_true, if_false, hexp, if_true, ne_eq, ha0, not_false_eq_true]
  rw [hrun]
  simp only [hrel, if_true]

/-- C1: the sweep does not get past the first expired timer.  Let the timer
list of the loop be `l`, all of its nodes in use, and let callbacks and
destructors leave the timer list alone.  When no timer of `l` has expired at
`now`, `_el_time_process` returns 0, has called nothing and has left the loop as
it was.  When `a` is the first expired timer of `l`, the sweep unlinks `a`,
calls its callback and its destructor (those it has), hands `a` to `free`, and
then reads `a->next` from the released node: an undefined step, reached
before any timer after `a` is looked at, whether expired or not. -/
theorem _el_time_process_reads_released_timer (env : Procs) (henv : TimersUntouched env)
    (now : Int × Int) (el : elHandle) (l : List Nat) (fuel : Nat)
    (hl : IsDll el.mem 0 el.times l) (hlive : ∀ x ∈ l, el.released x = false)
    (hfuel : l.length ≤ fuel) :
    ((∀ x ∈ l, ¬ expired now (el.mem x)) →
      _el_time_process env now fuel el = some (Res.ok (el, 0, []))) ∧
    (∀ (pre : List Nat) (a : Nat) (rest : List Nat), l = pre ++ a :: rest →
      (∀ x ∈ pre, ¬ expired now (el.mem x)) → expired now (el.mem a) →
      _el_time_process env now fuel el
        = some (Res.fault Fault.use_after_free (fireEvents (el.mem a) a))) := by
  constructor
  · intro hnot
    have hl2 : IsDll el.mem 0 el.times (l ++ []) := by rw [List.append_nil]; exact hl
    obtain ⟨q, hd2, hq, hrun⟩ := _el_time_process_loop_skips env now el [] (fuel - l.length) 0 []
      l 0 el.times hl2 hlive hnot
    have hfu : l.length + (fuel - l.length) = fuel := by omega
    rw [hfu] at hrun
    have h0 : hd2 = 0 := hq
    unfold _el_time_process
    rw [hrun, h0]
    cases (fuel - l.length) <;> simp [_el_time_process_loop]
  · intro pre a rest hsplit hnot hexp
    subst hsplit
    obtain ⟨q, hd2, hq, hrun⟩ := _el_time_process_loop_skips env now el (a :: rest)
      (fuel - pre.length) 0 [] pre 0 el.times hl
      (fun x hx => hlive x (List.mem_append_left _ hx)) hnot
    have hlen : pre.length + 1 ≤ fuel := by
      have : (pre ++ a :: rest).length = pre.length + (rest.length + 1) := by simp
      omega
    have hfu : pre.length + (fuel - pre.length) = fuel := by omega
    rw [hfu] at hrun
    obtain ⟨hhd, ha0, _, _⟩ := hq
    have hk : fuel - pre.length = (fuel - pre.length - 1) + 1 := by omega
    unfold _el_time_process
    rw [hrun, hhd, hk,
      _el_time_process_loop_fires env henv now el a _ 0 [] ha0
        (hlive a (List.mem_append_right _ (List.mem_cons_self _ _))) hexp]
    simp

theorem _el_time_process_reads_released_timer_witness :
    IsDll el3timers.mem 0 el3timers.times [3, 2, 1] ∧
    ¬ expired (101, 0) (el3timers.mem 3) ∧ expired (101, 0) (el3timers.mem 2) ∧
    ¬ expired (101, 0) (el3timers.mem 1) ∧
    _el_time_process idleProcs (101, 0) 3 el3timers
      = some (Res.fault Fault.use_after_free
          [Event.time_proc 11 2 22, Event.free_proc 12 22, Event.free_time 2]) :=
  ⟨by decide, by decide, by decide, by decide,
    (_el_time_process_reads_released_timer idleProcs
      ⟨fun _ _ _ _ => ⟨rfl, rfl, rfl⟩, fun _ _ _ => ⟨rfl, rfl, rfl⟩⟩ (101, 0) el3timers [3, 2, 1] 3
      (by decide) (by decide) (by decide)).2 [3] 2 [1] rfl (by decide) (by decide)⟩

/-! ## Teardown: `el_destroy` -/

theorem _el_file_clear_loop_spec (env : Procs) (henv : DestructorsInert env) :
    ∀ (n i : Nat) (el : elHandle) (fuel : Nat) (log : List Event),
      i + n = el.size → n ≤ fuel →
      ∃ el1, _el_file_clear_loop env fuel i el log
          = some (el1, log ++ fileClearEvents el.files n i) := by
  intro n
  induction n with
  | zero =>
    intro i el fuel log hi _
    have hsz : ¬ el.size > i := by omega
    refine ⟨el, ?_⟩
    cases fuel <;> simp [_el_file_clear_loop, fileClearEvents, hsz]
  | succ n ih =>
    intro i el fuel log hi hfuel
    have hsz : el.size > i := by omega
    cases fuel with
    | zero => simp at hfuel
    | succ fuel =>
      have hfuel2 : n ≤ fuel := by simpa using hfuel
      rw [_el_file_clear_loop]
      simp only [hsz, if_true]
      by_cases hf : (el.files i).free_proc ≠ 0
      · simp only [if_pos hf]
        obtain ⟨h1, h2, _⟩ := henv (el.files i).free_proc el (el.files i).data
        obtain ⟨el1, hrun⟩ := ih (i + 1)
          (env.free_proc (el.files i).free_proc el (el.files i).data) fuel
          (log ++ [Event.free_proc (el.files i).free_proc (el.files i).data])
          (by rw [h1]; omega) hfuel2
        refine ⟨el1, ?_⟩
        rw [hrun, h2]
        simp [fileClearEvents, hf]
      · simp only [if_neg hf]
        obtain ⟨el1, hrun⟩ := ih (i + 1) el fuel log (by omega) hfuel2
        refine ⟨el1, ?_⟩
        rw [hrun]
        simp [fileClearEvents, hf]

theorem fileClearEvents_destructors (files : Nat → elFileEvent) :
    ∀ n i : Nat, ((fileClearEvents files n i).filter Event.isDestructor).length
      = ((List.range' i n).filter (fun j => decide ((files j).free_proc ≠ 0))).length := by
  intro n
  induction n with
  | zero => intro i; rfl
  | succ n ih =>
    intro i
    by_cases hf : (files i).free_proc ≠ 0
    · simp [fileClearEvents, hf, List.filter_cons, Event.isDestructor, ih, List.range'_succ]
    · simp [fileClearEvents, hf, List.filter_cons, Event.isDestructor, ih, List.range'_succ]

theorem el_destroy_without_timers (env : Procs) (henv : DestructorsInert env) (el : elHandle)
    (fuel : Nat) (h0 : el.times = 0) (hf : el.size ≤ fuel) :
    el_destroy env fuel el
      = some (Res.ok ([Event.epoll_destroy] ++ fileClearEvents el.files el.size 0 ++
          [Event.free_handle])) := by
  obtain ⟨el2, hrun⟩ := _el_file_clear_loop_spec env henv el.size 0 el fuel [Event.epoll_destroy]
    (by omega) hf
  have h1 : _el_time_clear_loop env fuel el el.times [Event.epoll_destroy]
      = some (Res.ok (el, [Event.epoll_destroy])) := by
    rw [h0]; cases fuel <;> simp [_el_time_clear_loop]
  unfold el_destroy
  rw [h1]
  simp only []
  rw [hrun]

/-- C5: teardown of a loop that holds a timer does not get past its first
timer.  Let the timer list be non-empty, its head `a` a node in use.  Then
`el_destroy`, after releasing the multiplexer, calls the destructor of `a`
when it has one, hands `a` to `free` and then reads `a->next` from the
released node, an undefined step (when the destructor has itself released
`a`, the undefined step is the second `free` of `a`).  By then the destructor
of no other timer and of no descriptor has been called. -/
theorem el_destroy_reads_released_timer (env : Procs) (el : elHandle) (fuel : Nat)
    (hne : el.times ≠ 0) (hlive : el.released el.times = false) :
    el_destroy env (fuel + 1) el
      = some
        (if (el.mem el.times).free_proc ≠ 0 then
          if (env.free_proc (el.mem el.times).free_proc el (el.mem el.times).data).released
              el.times then
            Res.fault Fault.double_free
              [Event.epoll_destroy,
                Event.free_proc (el.mem el.times).free_proc (el.mem el.times).data]
          else
            Res.fault Fault.use_after_free
              [Event.epoll_destroy,
                Event.free_proc (el.mem el.times).free_proc (el.mem el.times).data,
                Event.free_time el.times]
        else Res.fault Fault.use_after_free [Event.epoll_destroy, Event.free_time el.times]) := by
  unfold el_destroy
  simp only [_el_time_clear_loop]
  rw [if_neg hne]
  simp only [hlive, Bool.false_eq_true, if_false]
  by_cases hfp : (el.mem el.times).free_proc ≠ 0
  · simp only [hfp, ne_eq, not_false_eq_true, if_true]
    by_cases hr : (env.free_proc (el.mem el.times).free_proc el (el.mem el.times).data).released
        el.times = true
    · simp [hr]
    · simp [hr, freeNode]
  · simp only [hfp, ne_eq, if_false]
    simp [hlive, freeNode]

theorem el_destroy_reads_released_timer_witness :
    el5.times ≠ 0 ∧ el5.released el5.times = false ∧
    (fileClearEvents el5.files el5.size 0).length = 2 ∧
    el_destroy idleProcs 4 el5
      = some (Res.fault Fault.use_after_free
          [Event.epoll_destroy, Event.free_proc 12 23, Event.free_time 3]) :=
  ⟨by decide, by decide, by decide,
    el_destroy_reads_released_timer idleProcs el5 3 (by decide) (by decide)⟩

/-! ## Nearest timer: `_el_time_search` -/

theorem _el_time_search_loop_spec (mem : Nat → elTimeEvent) :
    ∀ (rem : List Nat) (p hd nr fuel : Nat), nr ≠ 0 → IsDll mem p hd rem → rem.length ≤ fuel →
      ∃ r, _el_time_search_loop mem fuel hd nr = some r ∧ (r = nr ∨ r ∈ rem) ∧
        deadlineLE (mem r) (mem nr) ∧ ∀ a ∈ rem, deadlineLE (mem r) (mem a) := by
  intro rem
  induction rem with
  | nil =>
    intro p hd nr fuel _ h _
    have hz : hd = 0 := h
    subst hz
    refine ⟨nr, ?_, Or.inl rfl, Or.inr ⟨rfl, le_refl _⟩, fun a ha => absurd ha (List.not_mem_nil a)⟩
    cases fuel <;> simp [_el_time_search_loop]
  | cons a rest ih =>
    intro p hd nr fuel hnr h hfuel
    obtain ⟨hhd, ha0, _, htl⟩ := h
    subst hhd
    cases fuel with
    | zero => simp at hfuel
    | succ fuel =>
      have hfuel2 : rest.length ≤ fuel := by simpa using hfuel
      rw [_el_time_search_loop]
      simp only [ha0, if_false, hnr, false_or]
      by_cases hlt : (mem hd).sc < (mem nr).sc ∨
          ((mem hd).sc = (mem nr).sc ∧ (mem hd).ms < (mem nr).ms)
      · simp only [if_pos hlt]
        obtain ⟨r, hrun, hr, hle, hall⟩ := ih hd (mem hd).next hd fuel ha0 htl hfuel2
        refine ⟨r, hrun, ?_, ?_, ?_⟩
        · rcases hr with hr | hr
          · exact Or.inr (hr ▸ List.mem_cons_self hd rest)
          · exact Or.inr (List.mem_cons_of_mem hd hr)
        · unfold deadlineLE at hle ⊢; omega
        · intro x hx
          rcases List.mem_cons.mp hx with rfl | hx
          · exact hle
          · exact hall x hx
      · simp only [if_neg hlt]
        obtain ⟨r, hrun, hr, hle, hall⟩ := ih hd (mem hd).next nr fuel hnr htl hfuel2
        refine ⟨r, hrun, ?_, hle, ?_⟩
        · rcases hr with hr | hr
          · exact Or.inl hr
          · exact Or.inr (List.mem_cons_of_mem hd hr)
        · intro x hx
          rcases List.mem_cons.mp hx with rfl | hx
          · unfold deadlineLE at hle ⊢; omega
          · exact hall x hx

/-- C8: let the timer list of the loop be the nodes `l`.  Then
`_el_time_search` returns (with fuel for one step per node); its result is
`NULL` if and only if the list is empty; and otherwise it is a node of the list
whose deadline (seconds, then milliseconds) is less than or equal to the
deadline of every node of the list. -/
theorem _el_time_search_nearest (el : elHandle) (l : List Nat) (fuel : Nat)
    (hl : IsDll el.mem 0 el.times l) (hfuel : l.length ≤ fuel) :
    ∃ r, _el_time_search fuel el = some r ∧ (r = 0 ↔ l = []) ∧
      (l ≠ [] → r ∈ l ∧ ∀ a ∈ l, deadlineLE (el.mem r) (el.mem a)) := by
  unfold _el_time_search
  cases l with
  | nil =>
    have hz : el.times = 0 := hl
    rw [hz]
    refine ⟨0, ?_, by simp, fun h => absurd rfl h⟩
    cases fuel <;> simp [_el_time_search_loop]
  | cons a rest =>
    obtain ⟨hhd, ha0, _, htl⟩ := hl
    rw [hhd]
    cases fuel with
    | zero => simp at hfuel
    | succ fuel =>
      have hfuel2 : rest.length ≤ fuel := by simpa using hfuel
      obtain ⟨r, hrun, hr, hle, hall⟩ :=
        _el_time_search_loop_spec el.mem rest a (el.mem a).next a fuel ha0 htl hfuel2
      have hmem : r ∈ a :: rest := by
        rcases hr with hr | hr
        · exact hr ▸ List.mem_cons_self a rest
        · exact List.mem_cons_of_mem a hr
      have hr0 : r ≠ 0 := by
        rcases List.mem_cons.mp hmem with h | h
        · rw [h]; exact ha0
        · exact isDll_not_zero el.mem rest _ _ htl r h
      refine ⟨r, ?_, by simp [hr0], fun _ => ⟨hmem, ?_⟩⟩
      · rw [_el_time_search_loop]
        simp only [ha0, if_false, true_or, if_true]
        exact hrun
      · intro x hx
        rcases List.mem_cons.mp hx with rfl | hx
        · exact hle
        · exact hall x hx

theorem _el_time_search_nearest_witness :
    (∃ r, _el_time_search 3 el3timers = some r ∧ (r = 0 ↔ [3, 2, 1] = []) ∧
      ([3, 2, 1] ≠ [] → r ∈ [3, 2, 1] ∧
        ∀ a ∈ [3, 2, 1], deadlineLE (el3timers.mem r) (el3timers.mem a))) ∧
    _el_time_search 3 el3timers = some 2 ∧
    (el_time_del idleProcs 3 el3timers 2).map (Res.map Prod.snd)
      = some (Res.ok [Event.free_proc 12 22, Event.free_time 2]) ∧
    ((el_time_del idleProcs 3 el3timers 2).bind
      (fun r => _el_time_search 3 (r.loopOr el3timers))) = some 1 :=
  ⟨_el_time_search_nearest el3timers [3, 2, 1] 3 (by decide) (by decide), by decide, by rfl,
    by rfl⟩

/-! ## Dispatch -/

theorem nat_pow_and_cases (k n : Nat) : 2 ^ k &&& n = 0 ∨ 2 ^ k &&& n = 2 ^ k := by
  cases h : n.testBit k
  · left
    apply Nat.eq_of_testBit_eq
    intro i
    rw [Nat.testBit_and, Nat.testBit_two_pow]
    by_cases hki : k = i
    · subst hki; simp [h]
    · simp [hki]
  · right
    apply Nat.eq_of_testBit_eq
    intro i
    rw [Nat.testBit_and, Nat.testBit_two_pow]
    by_cases hki : k = i
    · subst hki; simp [h]
    · simp [hki]

theorem nat_pow_ldiff_cases (k n : Nat) :
    Nat.ldiff (2 ^ k) n = 0 ∨ Nat.ldiff (2 ^ k) n = 2 ^ k := by
  cases h : n.testBit k
  · right
    apply Nat.eq_of_testBit_eq
    intro i
    rw [Nat.testBit_ldiff, Nat.testBit_two_pow]
    by_cases hki : k = i
    · subst hki; simp [h]
    · simp [hki]
  · left
    apply Nat.eq_of_testBit_eq
    intro i
    rw [Nat.testBit_ldiff, Nat.testBit_two_pow]
    by_cases hki : k = i
    · subst hki; simp [h]
    · simp [hki]

theorem int_pow_land_cases (k : Nat) (x : Int) :
    Int.land ((2 ^ k : Nat) : Int) x = 0 ∨
      Int.land ((2 ^ k : Nat) : Int) x = ((2 ^ k : Nat) : Int) := by
  cases x with
  | ofNat n =>
    show ((2 ^ k &&& n : Nat) : Int) = 0 ∨ ((2 ^ k &&& n : Nat) : Int) = ((2 ^ k : Nat) : Int)
    rcases nat_pow_and_cases k n with h | h
    · left; rw [h]; rfl
    · right; rw [h]
  | negSucc n =>
    show ((Nat.ldiff (2 ^ k) n : Nat) : Int) = 0 ∨
      ((Nat.ldiff (2 ^ k) n : Nat) : Int) = ((2 ^ k : Nat) : Int)
    rcases nat_pow_ldiff_cases k n with h | h
    · left; rw [h]; rfl
    · right; rw [h]

theorem land_bit_both (k : Nat) (a b : Int) :
    Int.land (Int.land ((2 ^ k : Nat) : Int) a) b ≠ 0 ↔
      Int.land ((2 ^ k : Nat) : Int) a ≠ 0 ∧ Int.land ((2 ^ k : Nat) : Int) b ≠ 0 := by
  rcases int_pow_land_cases k a with h | h
  · rw [h, int_zero_land]; simp
  · rw [h]
    have : ((2 ^ k : Nat) : Int) ≠ 0 := by positivity
    simp [this]

theorem land_readable_both (a b : Int) :
    Int.land (Int.land EL_READABLE a) b ≠ 0 ↔
      Int.land EL_READABLE a ≠ 0 ∧ Int.land EL_READABLE b ≠ 0 :=
  land_bit_both 0 a b

theorem land_writable_both (a b : Int) :
    Int.land (Int.land EL_WRITABLE a) b ≠ 0 ↔
      Int.land EL_WRITABLE a ≠ 0 ∧ Int.land EL_WRITABLE b ≠ 0 :=
  land_bit_both 1 a b

theorem _el_process_body_spec (env : Procs) (el : elHandle) (i : Nat) (log : List Event) :
    _el_process_body env el i log
      = if readDue el i ∧ (el.files (el.trigs i).fd).rfile_proc = 0 then
          Res.fault Fault.null_call log
        else if writeDue (afterRead env el i) el i ∧
            ((afterRead env el i).files (el.trigs i).fd).wfile_proc = 0 then
          Res.fault Fault.null_call (log ++ readCall el i)
        else
          Res.ok (afterWrite env el i,
            log ++ readCall el i ++ writeCall (afterRead env el i) el i) := by
  have hr : Int.land (Int.land EL_READABLE (el.trigs i).mask) (el.files (el.trigs i).fd).mask ≠ 0
      ↔ readDue el i := land_readable_both _ _
  have hw : ∀ tbl : elHandle,
      Int.land (Int.land EL_WRITABLE (el.trigs i).mask) (tbl.files (el.trigs i).fd).mask ≠ 0
        ↔ writeDue tbl el i := fun tbl => land_writable_both _ _
  unfold _el_process_body
  simp only [hr, hw]
  by_cases h1 : readDue el i
  · by_cases h2 : (el.files (el.trigs i).fd).rfile_proc = 0
    · rw [if_pos (And.intro h1 h2)]
      simp only [if_pos h1, if_pos h2]
    · rw [if_neg (fun h : _ ∧ _ => h2 h.2)]
      have ha : afterRead env el i
          = env.file_proc (el.files (el.trigs i).fd).rfile_proc el (el.trigs i).fd
              (el.files (el.trigs i).fd).data (el.trigs i).mask := by
        unfold afterRead; rw [if_pos h1]
      have hc : readCall el i
          = [Event.rfile_proc (el.files (el.trigs i).fd).rfile_proc (el.trigs i).fd
              (el.files (el.trigs i).fd).data (el.trigs i).mask] := by
        unfold readCall; rw [if_pos h1]
      simp only [if_pos h1, if_neg h2]
      rw [← ha, ← hc]
      by_cases h3 : writeDue (afterRead env el i) el i
      · by_cases h4 : ((afterRead env el i).files (el.trigs i).fd).wfile_proc = 0
        · rw [if_pos (And.intro h3 h4)]
          simp only [if_pos h3, if_pos h4]
        · rw [if_neg (fun h : _ ∧ _ => h4 h.2)]
          simp only [if_pos h3, if_neg h4, afterWrite, writeCall]
      · rw [if_neg (fun h : _ ∧ _ => h3 h.1)]
        simp only [if_neg h3, afterWrite, writeCall, List.append_nil]
  · rw [if_neg (fun h : _ ∧ _ => h1 h.1)]
    have ha : afterRead env el i = el := by unfold afterRead; rw [if_neg h1]
    have hc : readCall el i = [] := by unfold readCall; rw [if_neg h1]
    simp only [if_neg h1]
    rw [ha, hc]
    by_cases h3 : writeDue el el i
    · by_cases h4 : (el.files (el.trigs i).fd).wfile_proc = 0
      · rw [if_pos (And.intro h3 h4)]
        simp only [if_pos h3, if_pos h4, List.append_nil]
      · rw [if_neg (fun h : _ ∧ _ => h4 h.2)]
        simp only [if_pos h3, if_neg h4, afterWrite, writeCall, ha, List.append_nil]
    · rw [if_neg (fun h : _ ∧ _ => h3 h.1)]
      simp only [if_neg h3, afterWrite, writeCall, ha, List.append_nil]

theorem el_file_add_trigs (ctl : Int → Nat → Int → Int) (el : elHandle) (fd : Nat) (mask : Int)
    (fp data frp : Nat) : (el_file_add ctl el fd mask fp data frp).2.trigs = el.trigs := by
  by_cases h : el.size ≤ fd
  · rw [el_file_add_out _ _ _ _ _ _ _ h]
  · rw [el_file_add_snd _ _ _ _ _ _ _ (Nat.not_le.mp h)]; rfl

theorem sameForDispatch_of_eq (a b : elFileEvent) (h : a = b) : SameForDispatch a b := by
  rw [h]; exact ⟨rfl, rfl, rfl, rfl, rfl⟩

theorem sameForDispatch_trans (a b c : elFileEvent) (h1 : SameForDispatch a b)
    (h2 : SameForDispatch b c) : SameForDispatch a c :=
  ⟨h1.1.trans h2.1, h1.2.1.trans h2.2.1, h1.2.2.1.trans h2.2.2.1,
    h1.2.2.2.1.trans h2.2.2.2.1, h1.2.2.2.2.trans h2.2.2.2.2⟩

theorem sameForWrite_trans (a b c : elFileEvent) (h1 : SameForWrite a b)
    (h2 : SameForWrite b c) : SameForWrite a c :=
  ⟨h1.1.trans h2.1, h1.2.1.trans h2.2.1, h1.2.2.trans h2.2.2⟩

theorem readCall_congr (e el : elHandle) (i : Nat) (ht : e.trigs i = el.trigs i)
    (hf : SameForDispatch (e.files (el.trigs i).fd) (el.files (el.trigs i).fd)) :
    readCall e i = readCall el i := by
  simp only [readCall, readDue, ht, hf.1, hf.2.1, hf.2.2.2.2]

theorem writeCall_congr (t1 t2 e el : elHandle) (i : Nat) (ht : e.trigs i = el.trigs i)
    (hf : Int.land EL_WRITABLE (el.trigs i).mask ≠ 0 →
      SameForWrite (t1.files (el.trigs i).fd) (t2.files (el.trigs i).fd)) :
    writeCall t1 e i = writeCall t2 el i := by
  simp only [writeCall, writeDue, ht]
  by_cases hw : Int.land EL_WRITABLE (el.trigs i).mask ≠ 0
  · simp only [(hf hw).1, (hf hw).2.1, (hf hw).2.2]
  · rw [if_neg (fun h => hw h.1), if_neg (fun h => hw h.1)]

theorem _el_process_loop_snapshot (env : Procs) (el : elHandle) (n : Nat)
    (hread : ∀ i, i < n → readDue el i →
      (el.files (el.trigs i).fd).rfile_proc ≠ 0 ∧
      KeepsPending el n (i + 1) (readCallback env el i) ∧
      (Int.land EL_WRITABLE (el.trigs i).mask ≠ 0 →
        ∀ e : elHandle,
          SameForWrite ((readCallback env el i e).files (el.trigs i).fd)
            (e.files (el.trigs i).fd)))
    (hwrite : ∀ i, i < n → writeDue el el i →
      (el.files (el.trigs i).fd).wfile_proc ≠ 0 ∧
      KeepsPending el n (i + 1) (writeCallback env el i)) :
    ∀ (m i : Nat) (e : elHandle) (log : List Event), i + m = n →
      (∀ j, i ≤ j → j < n →
        e.trigs j = el.trigs j ∧
        SameForDispatch (e.files (el.trigs j).fd) (el.files (el.trigs j).fd)) →
      ∃ e2, _el_process_loop env m i e log = Res.ok (e2, log ++ snapshotCalls el m i) := by
  intro m
  induction m with
  | zero =>
    intro i e log _ _
    exact ⟨e, by simp [_el_process_loop, snapshotCalls]⟩
  | succ m ih =>
    intro i e log him hinv
    have hi : i < n := by omega
    obtain ⟨ht, hfe⟩ := hinv i (Nat.le_refl i) hi
    have hrd : readDue e i ↔ readDue el i := by unfold readDue; rw [ht, hfe.1]
    -- the loop after the read callback
    have h1 : (Int.land EL_WRITABLE (el.trigs i).mask ≠ 0 →
          SameForWrite ((afterRead env e i).files (el.trigs i).fd) (el.files (el.trigs i).fd)) ∧
        (∀ j, i + 1 ≤ j → j < n → (afterRead env e i).trigs j = el.trigs j ∧
          SameForDispatch ((afterRead env e i).files (el.trigs j).fd)
            (el.files (el.trigs j).fd)) ∧
        (readDue e i → (e.files (e.trigs i).fd).rfile_proc ≠ 0) := by
      by_cases hr : readDue el i
      · obtain ⟨hnn, hk, hown⟩ := hread i hi hr
        have ha : afterRead env e i = readCallback env el i e := by
          unfold afterRead readCallback
          rw [if_pos (hrd.mpr hr), ht, hfe.2.1, hfe.2.2.2.2]
        rw [ha]
        refine ⟨fun hw => sameForWrite_trans _ _ _ (hown hw e) hfe.2.2,
          fun j hj1 hj2 => ?_, fun _ => ?_⟩
        · obtain ⟨hk1, hk2⟩ := hk e j hj1 hj2
          obtain ⟨hi1, hi2⟩ := hinv j (by omega) hj2
          exact ⟨hk1.trans hi1, sameForDispatch_trans _ _ _ hk2 hi2⟩
        · rw [ht, hfe.2.1]; exact hnn
      · have ha : afterRead env e i = e := by
          unfold afterRead
          rw [if_neg (fun h => hr (hrd.mp h))]
        rw [ha]
        exact ⟨fun _ => hfe.2.2, fun j hj1 hj2 => hinv j (by omega) hj2,
          fun h => absurd (hrd.mp h) hr⟩
    obtain ⟨hown, hinv1, hnn1⟩ := h1
    have hwd : writeDue (afterRead env e i) e i ↔ writeDue el el i := by
      unfold writeDue
      rw [ht]
      constructor
      · intro h; exact ⟨h.1, by rw [← (hown h.1).1]; exact h.2⟩
      · intro h; exact ⟨h.1, by rw [(hown h.1).1]; exact h.2⟩
    -- the loop after the write callback
    have h2 : (∀ j, i + 1 ≤ j → j < n → (afterWrite env e i).trigs j = el.trigs j ∧
          SameForDispatch ((afterWrite env e i).files (el.trigs j).fd)
            (el.files (el.trigs j).fd)) ∧
        (writeDue (afterRead env e i) e i →
          ((afterRead env e i).files (e.trigs i).fd).wfile_proc ≠ 0) := by
      by_cases hw : writeDue el el i
      · obtain ⟨hnn, hk⟩ := hwrite i hi hw
        have hfd := hown hw.1
        have ha : afterWrite env e i = writeCallback env el i (afterRead env e i) := by
          unfold afterWrite writeCallback
          rw [if_pos (hwd.mpr hw), ht, hfd.2.1, hfd.2.2]
        rw [ha]
        refine ⟨fun j hj1 hj2 => ?_, fun _ => ?_⟩
        · obtain ⟨hk1, hk2⟩ := hk (afterRead env e i) j hj1 hj2
          obtain ⟨hi1, hi2⟩ := hinv1 j hj1 hj2
          exact ⟨hk1.trans hi1, sameForDispatch_trans _ _ _ hk2 hi2⟩
        · rw [ht, hfd.2.1]; exact hnn
      · have ha : afterWrite env e i = afterRead env e i := by
          unfold afterWrite
          rw [if_neg (fun h => hw (hwd.mp h))]
        rw [ha]
        exact ⟨hinv1, fun h => absurd (hwd.mp h) hw⟩
    obtain ⟨hinv2, hnn2⟩ := h2
    obtain ⟨e2, hrun⟩ := ih (i + 1) (afterWrite env e i)
      (log ++ readCall e i ++ writeCall (afterRead env e i) e i) (by omega) hinv2
    refine ⟨e2, ?_⟩
    simp only [_el_process_loop]
    rw [_el_process_body_spec, if_neg (fun h => hnn1 h.1 h.2), if_neg (fun h => hnn2 h.1 h.2)]
    simp only []
    rw [hrun, readCall_congr e el i ht hfe,
      writeCall_congr (afterRead env e i) el e el i ht hown]
    simp [snapshotCalls, List.append_assoc]

/-- C7, as stated, fails in both directions, because the mask `m` stored when
the pair is taken up is not the mask the second test reads.  (a) Descriptor 1
is registered for reading only (`m` is `EL_READABLE`) and reported readable and
hung up, so the reported mask holds `EL_READABLE` and `EL_WRITABLE`; its read
callback registers write interest with `el_file_add`: the write callback is
called although `EL_WRITABLE` is not in `m`.  (b) Descriptor 2 is registered
for reading and writing and reported readable and writable; its read callback
calls `el_file_del(el, 2, EL_WRITABLE)`: the write callback is not called
although `EL_WRITABLE` is in the reported mask and in `m`. -/
theorem dispatch_second_test_reads_mask_again :
    el_file_get elTickC 1 = EL_READABLE ∧ (elTickC.trigs 0).mask = 3 ∧
    (_el_process_files apiProcs elTickC 1).map Prod.snd
      = Res.ok [Event.rfile_proc 9 1 4 3, Event.wfile_proc 9 1 4 3] ∧
    el_file_get elTickD 2 = 3 ∧ (elTickD.trigs 0).mask = 3 ∧
    (_el_process_files apiProcs elTickD 1).map Prod.snd = Res.ok [Event.rfile_proc 5 2 8 3] := by
  have hD : _el_process_body apiProcs elTickD 0 []
      = Res.ok (afterWrite apiProcs elTickD 0, [Event.rfile_proc 5 2 8 3]) := by
    have hm : ((afterRead apiProcs elTickD 0).files (elTickD.trigs 0).fd).mask
        = Int.land 3 (Int.lnot EL_WRITABLE) := by rfl
    have hw : ¬ writeDue (afterRead apiProcs elTickD 0) elTickD 0 := by
      unfold writeDue
      rw [hm, land_writable_clear]; simp
    rw [_el_process_body_spec, if_neg (by decide), if_neg (fun h => hw h.1)]
    unfold writeCall
    rw [if_neg hw]
    rfl
  refine ⟨by decide, by decide, by rfl, by decide, by decide, ?_⟩
  show (_el_process_loop apiProcs 1 0 elTickD []).map Prod.snd = _
  simp only [_el_process_loop]
  rw [hD]; rfl

/-- C7, amended: the dispatch of the ready entries from `i` on takes them up one
by one.  For the pair `(fd, reported)` read from `el->trigs[i]` it calls the
read callback of the entry of `fd` if and only if `EL_READABLE` is in
`reported` and in the mask stored for `fd` at that moment; after that it calls
the write callback of the entry if and only if `EL_WRITABLE` is in `reported`
and in the mask stored for `fd` when the read callback (if called) has
returned; then it goes on with the entry `i + 1`, on the loop as the two
callbacks left it.  So per pair each callback is called at most once, the
read callback first; a callback that is due but `NULL` is called all the same,
which is where the dispatch ends (an undefined call).  Without entries to go,
nothing is called.  When the read callback returns with the mask of `fd` as it
was, both tests go by the one stored mask. -/
theorem _el_process_loop_step (env : Procs) (el : elHandle) (n i : Nat) (log : List Event) :
    _el_process_loop env 0 i el log = Res.ok (el, log) ∧
    _el_process_loop env (n + 1) i el log
      = (if readDue el i ∧ (el.files (el.trigs i).fd).rfile_proc = 0 then
          Res.fault Fault.null_call log
        else if writeDue (afterRead env el i) el i ∧
            ((afterRead env el i).files (el.trigs i).fd).wfile_proc = 0 then
          Res.fault Fault.null_call (log ++ readCall el i)
        else
          _el_process_loop env n (i + 1) (afterWrite env el i)
            (log ++ readCall el i ++ writeCall (afterRead env el i) el i)) ∧
    (((afterRead env el i).files (el.trigs i).fd).mask = (el.files (el.trigs i).fd).mask →
      (writeDue (afterRead env el i) el i ↔ writeDue el el i)) := by
  refine ⟨rfl, ?_, fun h => ?_⟩
  · simp only [_el_process_loop]
    rw [_el_process_body_spec]
    split_ifs <;> rfl
  · unfold writeDue
    rw [h]

theorem _el_process_loop_step_witness :
    ((elTickA.files (elTickA.trigs 0).fd).mask = 3 ∧ (elTickA.trigs 0).mask = 3) ∧
    (_el_process_loop idleProcs 1 0 elTickA []).map Prod.snd
      = Res.ok [Event.rfile_proc 6 1 9 3, Event.wfile_proc 6 1 9 3] ∧
    (writeDue (afterRead idleProcs elTickA 0) elTickA 0 ↔ writeDue elTickA elTickA 0) :=
  ⟨by decide,
    by rw [(_el_process_loop_step idleProcs elTickA 0 0 []).2.1]; rfl,
    (_el_process_loop_step idleProcs elTickA 0 0 []).2.2 rfl⟩

/-! ## `nio.c`: connecting -/

/-- C9, on the code: (a) the resolver returns one address, `socket` returns 3,
`nio_enable_tcp_reuseaddr` succeeds and `connect` fails with `ECONNREFUSED`
(111): `nio_tcp_connect` closes descriptor 3, leaves the loop, records the
error text, closes descriptor 3 a second time at the label `err` and returns
3, not `NIO_ERR`.  (b) `socket` returns 3 and `nio_enable_tcp_reuseaddr`
fails: `nio_tcp_nonblock_connect` closes descriptor 3 and returns 3. -/
theorem nio_tcp_connect_returns_closed_descriptor :
    nio_tcp_connect (fun _ => (0, [⟨3, 0, 0, -1, Errno.other 111⟩])) 8080
      = (3, [Sys.close 3, Sys.error ErrText.creating_socket, Sys.close 3, Sys.freeaddrinfo]) ∧
    nio_tcp_nonblock_connect (fun _ => (0, [⟨3, -1, 0, 0, Errno.other 0⟩])) 8080
      = (3, [Sys.close 3, Sys.freeaddrinfo]) := by
  decide

/-! ## `nio.c`: non-blocking read -/

theorem nio_tcp_nonblock_read_ok_complete (count : Int) :
    ∀ (reads : List (Int × Errno)) (len : Int) (log : List Sys) (l1 : Int) (log1 : List Sys),
      nio_tcp_nonblock_read count reads len log = some (NIO_OK, l1, log1) → l1 = count := by
  intro reads
  induction reads with
  | nil => intro len log l1 log1 h; simp [nio_tcp_nonblock_read] at h
  | cons r rest ih =>
    intro len log l1 log1 h
    obtain ⟨byte, errno⟩ := r
    have hok : NIO_ERR ≠ NIO_OK := by decide
    have hdis : NIO_DISCONNECT ≠ NIO_OK := by decide
    cases errno <;> simp only [nio_tcp_nonblock_read] at h <;> split_ifs at h <;>
      first
        | exact ih _ _ _ _ h
        | (simp only [Option.some.injEq, Prod.mk.injEq] at h
           first
             | exact absurd h.1 hok
             | exact absurd h.1 hdis
             | (rw [← h.2.1]; symm; assumption))

/-- C10, as stated, fails: with `count = 10` and `*len = 3`, after a `read`
that reports `EAGAIN` the function has not returned (it is in its loop, about
to call `read` again); when the next `read` delivers 7 bytes and the one after
reports `EAGAIN`, it returns `NIO_OK` after three `read` calls with `*len = 10`. -/
theorem nio_tcp_nonblock_read_spins_on_eagain :
    nio_tcp_nonblock_read 10 [(NIO_ERR, Errno.EAGAIN)] 3 [] = none ∧
    nio_tcp_nonblock_read 10
        [(NIO_ERR, Errno.EAGAIN), (7, Errno.other 0), (NIO_ERR, Errno.EAGAIN)] 3 []
      = some (NIO_OK, 10, [Sys.read 3 7, Sys.read 3 7, Sys.read 10 0]) := by
  decide

/-- C10, amended: when a `read` call reports `EAGAIN` while `*len != count`,
`nio_tcp_nonblock_read` leaves `*len` unchanged and does not return: it goes on
with the next `read` call, at the same offset.  When a `read` call reports
`EAGAIN` while `*len == count`, it returns `NIO_OK` without a further `read`
call and with `*len` unchanged.  Whenever it returns `NIO_OK`, `*len` equals
`count`. -/
theorem nio_tcp_nonblock_read_eagain (count len : Int) (rest : List (Int × Errno))
    (log : List Sys) :
    (len ≠ count →
      nio_tcp_nonblock_read count ((NIO_ERR, Errno.EAGAIN) :: rest) len log
        = nio_tcp_nonblock_read count rest len (log ++ [Sys.read len (count - len)])) ∧
    nio_tcp_nonblock_read count ((NIO_ERR, Errno.EAGAIN) :: rest) count log
      = some (NIO_OK, count, log ++ [Sys.read count (count - count)]) ∧
    (∀ (reads : List (Int × Errno)) (l1 : Int) (log1 : List Sys),
      nio_tcp_nonblock_read count reads len log = some (NIO_OK, l1, log1) → l1 = count) := by
  refine ⟨fun h => ?_, ?_, fun reads l1 log1 h =>
    nio_tcp_nonblock_read_ok_complete count reads len log l1 log1 h⟩
  · simp only [nio_tcp_nonblock_read, if_true, if_neg (Ne.symm h), add_zero]
  · simp only [nio_tcp_nonblock_read, if_true]

theorem nio_tcp_nonblock_read_eagain_witness :
    nio_tcp_nonblock_read 10 [(NIO_ERR, Errno.EAGAIN), (0, Errno.other 0)] 3 []
      = some (NIO_DISCONNECT, 3, [Sys.read 3 7, Sys.read 3 7, Sys.error ErrText.read]) := by
  rw [(nio_tcp_nonblock_read_eagain 10 3 [(0, Errno.other 0)] []).1 (by decide)]
  decide

/-! ## `nio.c`: blocking read and write -/

theorem nio_tcp_write_loop_partial (count : Int) :
    ∀ (sizes : List Int) (totlen : Int) (log : List Sys),
      (∀ b ∈ sizes, 0 < b) → totlen + sizes.sum = count →
      nio_tcp_write_loop count sizes totlen totlen log
        = some (count, log ++ doubledWrites count sizes totlen) := by
  intro sizes
  induction sizes with
  | nil =>
    intro totlen log _ hsum
    have h : totlen = count := by simpa using hsum
    simp [nio_tcp_write_loop, doubledWrites, h]
  | cons b rest ih =>
    intro totlen log hpos hsum
    have hb : 0 < b := hpos b (List.mem_cons_self b rest)
    have hrest : ∀ x ∈ rest, 0 < x := fun x hx => hpos x (List.mem_cons_of_mem b hx)
    have hsum0 : 0 ≤ rest.sum := List.sum_nonneg (fun x hx => le_of_lt (hrest x hx))
    have hsum2 : totlen + (b + rest.sum) = count := by simpa using hsum
    have hne : totlen ≠ count := by omega
    have hnerr : ¬ (NIO_ERR = b ∨ b = 0) := by
      have h1 : NIO_ERR = -1 := rfl
      omega
    rw [nio_tcp_write_loop, if_pos hne, if_neg hnerr]
    have hstep := ih (totlen + b) (log ++ [Sys.write (totlen + totlen) (count - totlen)])
      hrest (by omega)
    rw [hstep]
    have h2 : totlen + totlen = 2 * totlen := by omega
    simp [doubledWrites, h2]

theorem nio_tcp_read_loop_partial (count : Int) :
    ∀ (sizes : List Int) (totlen : Int) (log : List Sys),
      (∀ b ∈ sizes, 0 < b) → totlen + sizes.sum = count →
      nio_tcp_read_loop count sizes totlen totlen log
        = some (count, log ++ doubledReads count sizes totlen) := by
  intro sizes
  induction sizes with
  | nil =>
    intro totlen log _ hsum
    have h : totlen = count := by simpa using hsum
    simp [nio_tcp_read_loop, doubledReads, h]
  | cons b rest ih =>
    intro totlen log hpos hsum
    have hb : 0 < b := hpos b (List.mem_cons_self b rest)
    have hrest : ∀ x ∈ rest, 0 < x := fun x hx => hpos x (List.mem_cons_of_mem b hx)
    have hsum0 : 0 ≤ rest.sum := List.sum_nonneg (fun x hx => le_of_lt (hrest x hx))
    have hsum2 : totlen + (b + rest.sum) = count := by simpa using hsum
    have hne : totlen ≠ count := by omega
    have hnerr : ¬ (NIO_ERR = b ∨ b = 0) := by
      have h1 : NIO_ERR = -1 := rfl
      omega
    rw [nio_tcp_read_loop, if_pos hne, if_neg hnerr]
    have hstep := ih (totlen + b) (log ++ [Sys.read (totlen + totlen) (count - totlen)])
      hrest (by omega)
    rw [hstep]
    have h2 : totlen + totlen = 2 * totlen := by omega
    simp [doubledReads, h2]

/-- C11, on the code: for positive partial sizes summing to `count`,
`nio_tcp_write` and `nio_tcp_read` do return `count`, but the ranges they hand
to the system calls are not the successive pieces of the buffer.  The pointer
`buf` is advanced by every partial transfer and `totlen` is added to it again
in the next call, so each call starts at twice the number of bytes transferred
so far: after a first partial transfer of `b1` bytes the second call starts at
offset `2 * b1` instead of `b1` and asks for `count - b1` bytes, which ends
`b1` bytes past the end of the buffer. -/
theorem nio_tcp_write_read_partial (count : Int) (sizes : List Int)
    (hpos : ∀ b ∈ sizes, 0 < b) (hsum : sizes.sum = count) :
    nio_tcp_write count sizes = some (count, doubledWrites count sizes 0) ∧
    nio_tcp_read count sizes = some (count, doubledReads count sizes 0) ∧
    (∀ b1 b2 rest, sizes = b1 :: b2 :: rest →
      doubledWrites count sizes 0
        = Sys.write 0 count :: Sys.write (2 * b1) (count - b1) ::
            doubledWrites count rest (b1 + b2) ∧
      doubledReads count sizes 0
        = Sys.read 0 count :: Sys.read (2 * b1) (count - b1) ::
            doubledReads count rest (b1 + b2)) := by
  refine ⟨?_, ?_, ?_⟩
  · have h := nio_tcp_write_loop_partial count sizes 0 [] hpos (by omega)
    simpa [nio_tcp_write] using h
  · have h := nio_tcp_read_loop_partial count sizes 0 [] hpos (by omega)
    simpa [nio_tcp_read] using h
  · intro b1 b2 rest h
    subst h
    simp [doubledWrites, doubledReads]

theorem nio_tcp_write_read_partial_witness :
    nio_tcp_write 4 [2, 2] = some (4, [Sys.write 0 4, Sys.write 4 2]) ∧
    nio_tcp_read 4 [2, 2] = some (4, [Sys.read 0 4, Sys.read 4 2]) := by
  have h := nio_tcp_write_read_partial 4 [2, 2] (by decide) (by decide)
  exact ⟨h.1.trans (by decide), h.2.1.trans (by decide)⟩

/-! ## `nio.c`: the service text -/

/-- C13, on the code: `snprintf(sport, sizeof(sport)-1, "%d", port)` is given
the size 5, which counts the terminating zero, so at most four characters of
the decimal text are stored.  For the port 10000 the text handed to the
resolver is "1000" (which denotes 1000), for 65535 it is "6553":
`_nio_tcp_generic_connect` and `_nio_tcp_generic_server` succeed with a
resolver that knows only these cut services.  A four-digit port such as 8080
is stored whole. -/
theorem sport_holds_four_characters :
    (∀ port : Int, (snprintf_d (6 - 1) port).length ≤ 4) ∧
    snprintf_d (6 - 1) 10000 = ['1', '0', '0', '0'] ∧
    decimalValue (snprintf_d (6 - 1) 10000) = 1000 ∧
    snprintf_d (6 - 1) 65535 = ['6', '5', '5', '3'] ∧
    decimalValue (snprintf_d (6 - 1) 65535) = 6553 ∧
    _nio_tcp_generic_connect (resolverFor ['1', '0', '0', '0'] [⟨3, 0, 0, 0, Errno.other 0⟩])
        10000 NIO_CONNECT_NONE = (3, [Sys.freeaddrinfo]) ∧
    _nio_tcp_generic_connect
        (resolverFor ['1', '0', '0', '0', '0'] [⟨3, 0, 0, 0, Errno.other 0⟩])
        10000 NIO_CONNECT_NONE = (NIO_ERR, [Sys.error ErrText.gai_strerror]) ∧
    _nio_tcp_generic_server (resolverFor ['6', '5', '5', '3'] [⟨4, 0, 0, 0, 0⟩])
        65535 AF_INET = (4, [Sys.freeaddrinfo]) ∧
    snprintf_d (6 - 1) 8080 = ['8', '0', '8', '0'] ∧
    decimalValue (snprintf_d (6 - 1) 8080) = 8080 := by
  refine ⟨fun port => ?_, by decide, by decide, by decide, by decide, by decide, by decide,
    by decide, by decide, by decide⟩
  unfold snprintf_d
  exact (List.length_take_le _ _)

/-! ## The wait of one tick -/

theorem wrapInt_of_range (x : Int) (h1 : -2147483648 ≤ x) (h2 : x ≤ 2147483647) :
    wrapInt x = x := by
  unfold wrapInt
  omega

theorem wrapLong_of_range (x : Int) (h : InLong x) : wrapLong x = x := by
  obtain ⟨h1, h2⟩ := h
  unfold wrapLong
  omega

theorem wrapLong_tms (a b c d : Int) :
    wrapLong (wrapLong (wrapLong (wrapLong (a - b) * 1000) + c) - d)
      = wrapLong ((a - b) * 1000 + c - d) := by
  unfold wrapLong
  omega

theorem timeval_round_trip (tms : Int) (h : 0 < tms) :
    Int.tdiv tms 1000 * 1000 + Int.tdiv (Int.tmod tms 1000 * 1000) 1000 = tms := by
  rw [Int.mul_tdiv_cancel _ (by decide : (1000 : Int) ≠ 0),
    Int.tdiv_eq_ediv (le_of_lt h) (by decide), Int.tmod_eq_emod (le_of_lt h) (by decide)]
  omega

theorem timeval_in_long (tms : Int) (h : 0 < tms) (hl : InLong tms) :
    InLong (Int.tmod tms 1000 * 1000) ∧ InLong (Int.tdiv tms 1000 * 1000) := by
  obtain ⟨h1, h2⟩ := hl
  unfold InLong
  rw [Int.tdiv_eq_ediv (le_of_lt h) (by decide), Int.tmod_eq_emod (le_of_lt h) (by decide)]
  omega

theorem _el_epoll_timeout_ptv (now : Int × Int) (el : elHandle) (te : Nat)
    (h : TimeoutInLong now el te) :
    _el_epoll_timeout (_el_process_ptv now el te) = wrapInt (tickTimeout now el te) := by
  obtain ⟨hte1, hte0⟩ := h
  unfold _el_epoll_timeout _el_process_ptv tickTimeout
  by_cases hte : te ≠ 0
  · have r4 := hte1 hte
    simp only [if_pos hte]
    rw [wrapLong_tms, wrapLong_of_range _ r4]
    by_cases htms : 0 < ((el.mem te).sc - now.1) * 1000 + (el.mem te).ms - now.2
    · obtain ⟨q1, q2⟩ := timeval_in_long _ htms r4
      simp only [if_pos htms]
      rw [wrapLong_of_range _ q1, wrapLong_of_range _ q2, timeval_round_trip _ htms,
        wrapLong_of_range _ r4, max_eq_right (le_of_lt htms)]
    · simp only [if_neg htms]
      rw [max_eq_left (not_lt.mp htms)]
      rfl
  · have hz : te = 0 := not_not.mp hte
    simp only [if_neg hte]
    by_cases hw : 0 < el.wait
    · have r := hte0 hz hw
      have r0 : InLong el.wait := by
        obtain ⟨r1, r2⟩ := r
        unfold InLong
        omega
      simp only [if_pos hw]
      rw [wrapLong_of_range _ r, Int.mul_tdiv_cancel _ (by decide : (1000 : Int) ≠ 0)]
      have h0 : wrapLong ((0 : Int) * 1000) = 0 := by decide
      rw [h0, Int.zero_add, wrapLong_of_range _ r0]
    · simp only [if_neg hw]

theorem tickTimeout_lower (now : Int × Int) (el : elHandle) (te : Nat) :
    -1 ≤ tickTimeout now el te := by
  unfold tickTimeout
  split_ifs <;> omega

theorem _el_time_search_result (el : elHandle) (l : List Nat) (fuel : Nat)
    (hl : IsDll el.mem 0 el.times l) (hfuel : l.length ≤ fuel) :
    ∃ r, _el_time_search fuel el = some r ∧ (r = 0 ↔ l = []) ∧ (l ≠ [] → r ∈ l) := by
  unfold _el_time_search
  cases l with
  | nil =>
    have hz : el.times = 0 := hl
    rw [hz]
    refine ⟨0, ?_, by simp, fun h => absurd rfl h⟩
    cases fuel <;> simp [_el_time_search_loop]
  | cons a rest =>
    obtain ⟨hhd, ha0, _, htl⟩ := hl
    rw [hhd]
    cases fuel with
    | zero => simp at hfuel
    | succ fuel =>
      have hfuel2 : rest.length ≤ fuel := by simpa using hfuel
      obtain ⟨r, hrun, hr, _, _⟩ :=
        _el_time_search_loop_spec el.mem rest a (el.mem a).next a fuel ha0 htl hfuel2
      have hmem : r ∈ a :: rest := by
        rcases hr with hr | hr
        · exact hr ▸ List.mem_cons_self a rest
        · exact List.mem_cons_of_mem a hr
      have hr0 : r ≠ 0 := by
        rcases List.mem_cons.mp hmem with h | h
        · rw [h]; exact ha0
        · exact isDll_not_zero el.mem rest _ _ htl r h
      refine ⟨r, ?_, by simp [hr0], fun _ => hmem⟩
      rw [_el_time_search_loop]
      simp only [ha0, if_false, true_or, if_true]
      exact hrun

theorem _el_process_oracle (env : Procs) (w1 w2 : Int → Int × (Nat → epoll_event))
    (now1 now2 : Int × Int) (fuel : Nat) (el : elHandle) (te : Nat)
    (hs : _el_time_search fuel el = some te)
    (hw : w1 (_el_epoll_timeout (_el_process_ptv now1 el te))
      = w2 (_el_epoll_timeout (_el_process_ptv now1 el te))) :
    _el_process env w1 now1 now2 fuel el = _el_process env w2 now1 now2 fuel el := by
  unfold _el_process
  rw [hs]
  simp only [_el_epoll, hw]

end EventLoop
